import Mathlib

/-!
Verification development for the domino-planner grid/history/color-assignment
core. Definitions are shallow embeddings of the JavaScript source
(`src/App.jsx`, `src/utils/colorUtils.js`); theorems settle the spec claims.
-/

/-- Cell values: the string "clear", the string "disney", or a hex string. -/
abbrev Grid := List (List String)

/-- Palette quantity: a finite integer or the JS value Infinity. -/
inductive Qty where
  | inf : Qty
  | fin (n : ℤ) : Qty
deriving DecidableEq, Repr

/-- Palette entry, mirroring the JS objects `{ hex, quantity, name? }`. -/
structure PaletteEntry where
  hex : String
  quantity : Qty
  name : Option String := none
deriving DecidableEq, Repr

/-- Value of one hex digit character (the regex in `hexToRgb` is
case-insensitive, and `parseInt(_, 16)` accepts both cases). -/
def hexDigitVal (c : Char) : Option Nat :=
  if '0' ≤ c ∧ c ≤ '9' then some (c.toNat - '0'.toNat)
  else if 'a' ≤ c ∧ c ≤ 'f' then some (10 + c.toNat - 'a'.toNat)
  else if 'A' ≤ c ∧ c ≤ 'F' then some (10 + c.toNat - 'A'.toNat)
  else none

/-- Drop one optional leading `#`, as the `#?` in the source regex. -/
def stripHash : List Char → List Char
  | '#' :: r => r
  | r => r

/-- Embedding of `hexToRgb`: the anchored regex `^#?([a-f\d]{2}){3}$` (flag i)
followed by `parseInt(_, 16)` on each two-digit group; `none` is JS `null`. -/
def hexToRgb (s : String) : Option (Nat × Nat × Nat) :=
  match stripHash s.toList with
  | [c1, c2, c3, c4, c5, c6] =>
    match hexDigitVal c1, hexDigitVal c2, hexDigitVal c3,
          hexDigitVal c4, hexDigitVal c5, hexDigitVal c6 with
    | some a, some b, some c, some d, some e, some f =>
      some (16 * a + b, 16 * c + d, 16 * e + f)
    | _, _, _, _, _, _ => none
  | _ => none

/-- Distance values: `none` is the JS `Infinity` returned on a parse failure. -/
abbrev JsDist := Option ℤ

/-- Embedding of `colorDistance`. The source returns
`sqrt((2 + m/256)·dr² + 4·dg² + (2 + (255−m)/256)·db²)` with `m = (r1+r2)/2`;
we return 512 times the square of that value, which is an integer:
`(1024+r1+r2)·dr² + 2048·dg² + (1534−r1−r2)·db²`. The program only ever
compares distances (strict `<` and sort comparators), and `x ↦ 512·x²` is
strictly monotone on nonnegative reals, so every comparison is preserved. -/
def colorDistance (hex1 hex2 : String) : JsDist :=
  match hexToRgb hex1, hexToRgb hex2 with
  | some (r1, g1, b1), some (r2, g2, b2) =>
    let dr : ℤ := (r1 : ℤ) - r2
    let dg : ℤ := (g1 : ℤ) - g2
    let db : ℤ := (b1 : ℤ) - b2
    some ((1024 + (r1 : ℤ) + r2) * (dr * dr) + 2048 * (dg * dg)
      + (1534 - (r1 : ℤ) - r2) * (db * db))
  | _, _ => none

/-- JS `<` on distances: `Infinity < Infinity` is false, `x < Infinity` is
true for finite `x`, and nothing is below a finite-vs-Infinity left side. -/
def distLT : JsDist → JsDist → Bool
  | some a, some b => a < b
  | some _, none => true
  | none, _ => false

/-- One ranked preference entry `{ hex, distance }`. -/
structure Pref where
  hex : String
  distance : JsDist
deriving DecidableEq, Repr

/-- Stable insertion: `x` goes before the first element not strictly below
it. Equal (and mutually incomparable) elements keep their original order,
matching the stable JS `Array.prototype.sort`. -/
def insertStable (lt : α → α → Bool) (x : α) : List α → List α
  | [] => [x]
  | y :: ys => if lt y x then y :: insertStable lt x ys else x :: y :: ys

/-- Stable sort (ascending by `lt`), modelling the stable JS sort with a
difference comparator; ties (including `Infinity` pairs, whose comparator
result is `NaN`, treated as equal) keep their original order. -/
def sortStable (lt : α → α → Bool) (l : List α) : List α :=
  l.foldr (insertStable lt) []

/-- Embedding of `findClosestPaletteColor`: scan the palette, skipping the
`clear` and `disney` sentinels, keeping the strictly closest hex seen so
far; fall back to `'clear'` when nothing was below `Infinity`. -/
def findClosestPaletteColor (pixelHex : String) (palette : List PaletteEntry) : String :=
  let r := palette.foldl
    (fun (acc : Option String × JsDist) p =>
      if p.hex = "clear" ∨ p.hex = "disney" then acc
      else
        let d := colorDistance pixelHex p.hex
        if distLT d acc.2 then (some p.hex, d) else acc)
    (none, none)
  r.1.getD "clear"

/-- Embedding of `getColorPreferences`: all non-sentinel palette colors with
their distances, sorted ascending by distance (stable). -/
def getColorPreferences (pixelHex : String) (palette : List PaletteEntry) : List Pref :=
  sortStable (fun a b => distLT a.distance b.distance)
    ((palette.filter (fun p => ¬ (p.hex = "clear" ∨ p.hex = "disney"))).map
      (fun p => { hex := p.hex, distance := colorDistance pixelHex p.hex }))

/-- JS `a || b` for an optional string `a`: `null`/`undefined` and the empty
string are falsy and fall through to `b`. -/
def jsOrStr (a : Option String) (b : String) : String :=
  match a with
  | none => b
  | some s => if s = "" then b else s

/-- Association-list lookup, modelling a JS object property read
(`undefined` when absent). -/
def alookup (m : List (String × α)) (k : String) : Option α :=
  (m.find? (fun p => p.1 = k)).map (·.2)

/-- Association-list write, modelling a JS object property assignment:
overwrite the existing slot for the key, else append a new one (JS objects
keep string keys in insertion order, which the program relies on when it
iterates `Object.entries`). -/
def aset : List (String × α) → String → α → List (String × α)
  | [], k, v => [(k, v)]
  | (k', v') :: r, k, v =>
    if k' = k then (k, v) :: r else (k', v') :: aset r k v

/-- JS `remainingAvailability[hex] > 0`: `undefined > 0` is false,
`Infinity > 0` is true. -/
def qtyPos : Option Qty → Bool
  | none => false
  | some .inf => true
  | some (.fin m) => 0 < m

/-- JS `pixels.length <= available`: false when `available` is `undefined`,
true when it is `Infinity`. -/
def jsLenLE (n : Nat) : Option Qty → Bool
  | none => false
  | some .inf => true
  | some (.fin m) => (n : ℤ) ≤ m

/-- JS `q - n` (repeated `--`): `Infinity` minus anything is `Infinity`. -/
def qtySub (q : Qty) (n : Nat) : Qty :=
  match q with
  | .inf => .inf
  | .fin m => .fin (m - n)

/-- One entry of `pixelPrefs`: `{ row, col, preferences, assigned }` with
`assigned` either `null` or a string. -/
structure PixelPref where
  row : Nat
  col : Nat
  preferences : List Pref
  assigned : Option String
deriving DecidableEq, Repr

/-- Remaining-availability map built in `distributeColorsEvenly` from the
palette, skipping the `clear` and `disney` sentinels. -/
def buildAvail (palette : List PaletteEntry) : List (String × Qty) :=
  palette.foldl
    (fun m p =>
      if ¬ (p.hex = "clear" ∨ p.hex = "disney") then aset m p.hex p.quantity else m)
    []

/-- First-pass entry for the pixel at `(r, c)`: a clear/transparent source
pixel is immediately assigned `'clear'`; an opaque one gets its ranked
preference list and `assigned = null`. Out-of-range reads of a ragged input
give the string form of JS `undefined`, which fails `hexToRgb` exactly as
the coerced `undefined` does in the source regex. -/
def mkPixelPref (pixelColors : Grid) (palette : List PaletteEntry) (r c : Nat) : PixelPref :=
  let pixelHex := (pixelColors.getD r []).getD c "undefined"
  if pixelHex = "clear" ∨ pixelHex = "transparent" then
    { row := r, col := c, preferences := [{ hex := "clear", distance := some 0 }],
      assigned := some "clear" }
  else
    { row := r, col := c, preferences := getColorPreferences pixelHex palette,
      assigned := none }

/-- The full `pixelPrefs` list, in the source's row-major push order. -/
def mkPixelPrefs (pixelColors : Grid) (palette : List PaletteEntry) (rows cols : Nat) :
    List PixelPref :=
  ((List.range rows).map
    (fun r => (List.range cols).map (fun c => mkPixelPref pixelColors palette r c))).flatten

/-- Best still-available preference of a pixel: the first ranked color whose
remaining availability is `> 0` (the source's inner `for`-loop with `break`). -/
def bestAvailable (avail : List (String × Qty)) (px : PixelPref) : Option Pref :=
  px.preferences.find? (fun pr => qtyPos (alookup avail pr.hex))

/-- Append a member to the group of `hex`, creating the group at the end on
first use (JS object property insertion order). -/
def addGroup : List (String × List (Nat × JsDist)) → String → Nat × JsDist →
    List (String × List (Nat × JsDist))
  | [], h, m => [(h, [m])]
  | (h', ms) :: r, h, m =>
    if h' = h then (h, ms ++ [m]) :: r else (h', ms) :: addGroup r h m

/-- The grouping half of one rationing round: walk the pixels in order and
put each still-unassigned pixel with an available preference into the group
of that preference, remembering its index and distance. Availability is only
read, never written, during this phase. -/
def buildGroupsAux (avail : List (String × Qty)) :
    Nat → List PixelPref → List (String × List (Nat × JsDist)) →
    List (String × List (Nat × JsDist))
  | _, [], gs => gs
  | i, px :: rest, gs =>
    buildGroupsAux avail (i + 1) rest
      (if px.assigned = none then
        match bestAvailable avail px with
        | some bp => addGroup gs bp.hex (i, bp.distance)
        | none => gs
      else gs)

/-- The fallback half of the grouping loop: a still-unassigned pixel with no
available preference is assigned `preferences[0]?.hex || 'clear'` on the
spot. In the source both halves run in one loop; they commute because the
fallback writes only the pixel itself and the grouping reads only the pixel
and the (unmodified) availability. -/
def phase1Assign (avail : List (String × Qty)) (pixels : List PixelPref) : List PixelPref :=
  pixels.map fun px =>
    if px.assigned = none ∧ bestAvailable avail px = none then
      { px with assigned := some (jsOrStr ((px.preferences.head?).map Pref.hex) "clear") }
    else px

/-- Set `assigned := hex` on the pixel at one index. -/
def assignAt (pixels : List PixelPref) (i : Nat) (hex : String) : List PixelPref :=
  match pixels.get? i with
  | some px => pixels.set i { px with assigned := some hex }
  | none => pixels

/-- Set `assigned := hex` on every listed index. -/
def assignIdxs (pixels : List PixelPref) (idxs : List Nat) (hex : String) : List PixelPref :=
  idxs.foldl (fun ps i => assignAt ps i hex) pixels

/-- Assignment of one color group (the body of the `Object.entries(groups)`
loop): if the whole group fits the remaining supply everyone gets the color,
else the group is stably sorted by distance and only the closest `available`
members get it; the availability slot is decremented once per assignment. -/
def applyGroup (st : List PixelPref × List (String × Qty))
    (g : String × List (Nat × JsDist)) : List PixelPref × List (String × Qty) :=
  let (pixels, avail) := st
  let (hex, members) := g
  let q := alookup avail hex
  if jsLenLE members.length q then
    (assignIdxs pixels (members.map (·.1)) hex,
      match q with
      | some qq => aset avail hex (qtySub qq members.length)
      | none => avail)
  else
    let sorted := sortStable (fun a b => distLT a.2 b.2) members
    let n : Nat := match q with
      | some (.fin m) => m.toNat
      | some .inf => members.length
      | none => 0
    let chosen := sorted.take n
    (assignIdxs pixels (chosen.map (·.1)) hex,
      match q with
      | some qq => aset avail hex (qtySub qq chosen.length)
      | none => avail)

/-- One full rationing round: group the unassigned pixels, apply the
no-choice fallback, then hand each group to `applyGroup` in insertion
order. -/
def doRound (avail : List (String × Qty)) (pixels : List PixelPref) :
    List PixelPref × List (String × Qty) :=
  let gs := buildGroupsAux avail 0 pixels []
  let ps1 := phase1Assign avail pixels
  gs.foldl applyGroup (ps1, avail)

/-- The `while (unassigned.some(...) && round < maxRounds)` loop with its
round cap of 10 as fuel. The source's `unassigned` array is the sublist of
pixels with `assigned === null` sharing the same objects, so testing it is
the same as testing the whole list. -/
def rationRounds : Nat → List (String × Qty) → List PixelPref → List PixelPref
  | 0, _, pixels => pixels
  | fuel + 1, avail, pixels =>
    if pixels.any (fun px => px.assigned = none) then
      let (ps', av') := doRound avail pixels
      rationRounds fuel av' ps'
    else pixels

/-- Embedding of `distributeColorsEvenly`. The `demand` tally in the source
is computed but never read, so it is omitted. The output cell expression is
the source's `pixel.assigned || pixel.preferences[0]?.hex || 'clear'`;
the out-of-range arm of the index lookup is unreachable because
`pixelPrefs` always has `rows·cols` entries. -/
def distributeColorsEvenly (pixelColors : Grid) (palette : List PaletteEntry) : Grid :=
  let rows := pixelColors.length
  let cols := (pixelColors.head?.map List.length).getD 0
  let avail := buildAvail palette
  let pixels := mkPixelPrefs pixelColors palette rows cols
  let final := rationRounds 10 avail pixels
  (List.range rows).map fun r =>
    (List.range cols).map fun c =>
      match final.get? (r * cols + c) with
      | some px =>
        jsOrStr px.assigned (jsOrStr ((px.preferences.head?).map Pref.hex) "clear")
      | none => "clear"

/-- Naive pointwise assignment as claimed for the unlimited-supply case:
clear (or transparent) pixels map to `'clear'`, opaque pixels to their
single nearest palette color via `findClosestPaletteColor`. -/
def naiveAssignment (pixelColors : Grid) (palette : List PaletteEntry) : Grid :=
  pixelColors.map fun row =>
    row.map fun px =>
      if px = "clear" ∨ px = "transparent" then "clear"
      else findClosestPaletteColor px palette

/-- The history bound `MAX_HISTORY` from the source. -/
def MAX_HISTORY : Nat := 50

/-- State owned by the grid/history engine: the live grid, the snapshot log,
the pointer (`historyIndex`), and the `isUndoRedo` suppress flag. The source
keeps `historyIndexRef` mirroring `historyIndex`; in this atomic model they
are one field. -/
structure HistoryState where
  grid : Grid
  history : List Grid
  historyIndex : Nat
  isUndoRedo : Bool
deriving DecidableEq, Repr

/-- Embedding of `saveToHistory`: a suppressed call only clears the flag;
otherwise the log is truncated to `pointer+1` entries, a (deep-copied)
snapshot is pushed, the oldest entry is shifted off when the length exceeds
`MAX_HISTORY`, and the pointer advances clamped to `MAX_HISTORY − 1`.
Deep copies (`cloneGrid`) are identities on immutable Lean values. -/
def saveToHistory (s : HistoryState) (newGrid : Grid) : HistoryState :=
  if s.isUndoRedo then { s with isUndoRedo := false }
  else
    let pushed := s.history.take (s.historyIndex + 1) ++ [newGrid]
    let newHistory := if MAX_HISTORY < pushed.length then pushed.tail else pushed
    { s with
      history := newHistory,
      historyIndex := min (s.historyIndex + 1) (MAX_HISTORY - 1) }

/-- A committed mutation: the mutation's `setGrid(newGrid)` together with its
paired `saveToHistory(newGrid)` call. -/
def commitGrid (s : HistoryState) (newGrid : Grid) : HistoryState :=
  { saveToHistory s newGrid with grid := newGrid }

/-- Embedding of `undo`: when the pointer is positive, set the suppress
flag, step the pointer back and install the snapshot there; otherwise a
no-op. The `getD` default is unreachable while the pointer is in range. -/
def undo (s : HistoryState) : HistoryState :=
  if 0 < s.historyIndex then
    { s with
      isUndoRedo := true,
      historyIndex := s.historyIndex - 1,
      grid := s.history.getD (s.historyIndex - 1) [] }
  else s

/-- Embedding of `redo`, symmetric to `undo` at the other end of the log. -/
def redo (s : HistoryState) : HistoryState :=
  if s.historyIndex < s.history.length - 1 then
    { s with
      isUndoRedo := true,
      historyIndex := s.historyIndex + 1,
      grid := s.history.getD (s.historyIndex + 1) [] }
  else s

/-- The operations a user session performs against the history engine. -/
inductive HistOp where
  | commit (g : Grid)
  | undo
  | redo
deriving Repr

/-- Apply one operation. -/
def applyHistOp (s : HistoryState) : HistOp → HistoryState
  | .commit g => commitGrid s g
  | .undo => undo s
  | .redo => redo s

/-- Run a sequence of operations left to right. -/
def runHistOps (ops : List HistOp) (s : HistoryState) : HistoryState :=
  ops.foldl applyHistOp s

/-- The initialized engine state: the startup effect seeds the log with one
snapshot of the live grid and pointer 0. -/
def initHistoryState (g0 : Grid) : HistoryState :=
  { grid := g0, history := [g0], historyIndex := 0, isUndoRedo := false }

/-- Mirrored positions of `(row, col)` for a mirror mode, from
`getMirroredPositions`. Coordinates are integers exactly as in JS, so a
mirror of an out-of-range input may be negative. -/
def getMirroredPositions (mirrorMode : String) (grid : Grid) (row col : ℤ) :
    List (ℤ × ℤ) :=
  let rows : ℤ := grid.length
  let cols : ℤ := (grid.head?.map List.length).getD 0
  let positions := [(row, col)]
  let positions := if mirrorMode = "horizontal" ∨ mirrorMode = "both" then
    positions ++ [(row, cols - 1 - col)] else positions
  let positions := if mirrorMode = "vertical" ∨ mirrorMode = "both" then
    positions ++ [(rows - 1 - row, col)] else positions
  if mirrorMode = "both" then positions ++ [(rows - 1 - row, cols - 1 - col)]
  else positions

/-- Write one cell of the grid (the in-place `newGrid[r][c] = color`). -/
def setCell (g : Grid) (r c : Nat) (color : String) : Grid :=
  g.set r ((g.getD r []).set c color)

/-- Embedding of `paintCell`: paint every mirrored position that passes the
bounds check `0 ≤ r < rows && 0 ≤ c < newGrid[0].length`; out-of-range
targets are silently dropped. -/
def paintCell (mirrorMode : String) (grid : Grid) (row col : ℤ)
    (selectedColor : String) : Grid :=
  (getMirroredPositions mirrorMode grid row col).foldl
    (fun acc pos =>
      if 0 ≤ pos.1 ∧ pos.1 < (acc.length : ℤ) ∧ 0 ≤ pos.2 ∧
          pos.2 < (((acc.head?.map List.length).getD 0 : Nat) : ℤ) then
        setCell acc pos.1.toNat pos.2.toNat selectedColor
      else acc)
    grid

/-- JS `Array.prototype.filter` with the element index. -/
def filterIdxAux (p : Nat → Bool) : Nat → List α → List α
  | _, [] => []
  | i, x :: xs =>
    if p i then x :: filterIdxAux p (i + 1) xs else filterIdxAux p (i + 1) xs

/-- Entry point of the indexed filter at index 0. -/
def filterIdx (p : Nat → Bool) (l : List α) : List α :=
  filterIdxAux p 0 l

/-- Embedding of `deleteRows`: the deletable count is clamped to
`rows − 1`; a clamped count of zero is a no-op; otherwise the rows with
index in `[startIndex, startIndex + actualCount)` are filtered out. -/
def deleteRows (grid : Grid) (startIndex count : Nat) : Grid :=
  let maxDeletable := grid.length - 1
  let actualCount := min count maxDeletable
  if actualCount = 0 then grid
  else filterIdx (fun i => decide (i < startIndex) || decide (startIndex + actualCount ≤ i)) grid

/-- Embedding of `deleteColumns`, the per-row analogue of `deleteRows`
clamped against `grid[0].length − 1`. -/
def deleteColumns (grid : Grid) (startIndex count : Nat) : Grid :=
  let currentCols := (grid.head?.map List.length).getD 0
  let maxDeletable := currentCols - 1
  let actualCount := min count maxDeletable
  if actualCount = 0 then grid
  else grid.map fun row =>
    filterIdx (fun i => decide (i < startIndex) || decide (startIndex + actualCount ≤ i)) row

/-- Hue of a hex color in degrees, embedding `getHue` over exact rationals
(the source computes the same expression in floating point; the values are
only compared by the palette sort). Unparsable colors get hue 0. -/
def getHue (hex : String) : ℚ :=
  match hexToRgb hex with
  | none => 0
  | some (ri, gi, bi) =>
    let r : ℚ := (ri : ℚ) / 255
    let g : ℚ := (gi : ℚ) / 255
    let b : ℚ := (bi : ℚ) / 255
    let mx := max (max r g) b
    let mn := min (min r g) b
    if mx = mn then 0
    else
      let d := mx - mn
      if mx = r then ((g - b) / d + (if g < b then 6 else 0)) * 60
      else if mx = g then ((b - r) / d + 2) * 60
      else ((r - g) / d + 4) * 60

/-- Split a character list at every separator (JS `String.prototype.split`
with a single-character separator). -/
def splitOnChar (sep : Char) : List Char → List (List Char)
  | [] => [[]]
  | c :: rest =>
    if c = sep then [] :: splitOnChar sep rest
    else
      match splitOnChar sep rest with
      | [] => [[c]]
      | w :: ws => (c :: w) :: ws

/-- String split via `splitOnChar`. -/
def splitStr (sep : Char) (s : String) : List String :=
  (splitOnChar sep s.toList).map String.mk

/-- JS `trim`: strip leading and trailing whitespace. -/
def jsTrim (s : String) : String :=
  String.mk (((s.toList.dropWhile Char.isWhitespace).reverse.dropWhile
    Char.isWhitespace).reverse)

/-- JS `toLowerCase` (ASCII, which covers every string the program compares). -/
def lowerStr (s : String) : String :=
  String.mk (s.toList.map Char.toLower)

/-- JS `startsWith('#')`. -/
def startsWithHash (s : String) : Bool :=
  match s.toList with
  | '#' :: _ => true
  | _ => false

/-- List-of-characters prefix test. -/
def listPrefixOf : List Char → List Char → Bool
  | [], _ => true
  | _ :: _, [] => false
  | a :: as, b :: bs => a = b && listPrefixOf as bs

/-- List-of-characters substring test. -/
def listContainsSub (needle : List Char) : List Char → Bool
  | [] => listPrefixOf needle []
  | c :: rest => listPrefixOf needle (c :: rest) || listContainsSub needle rest

/-- JS `hay.includes(needle)`. -/
def strContains (hay needle : String) : Bool :=
  listContainsSub needle.toList hay.toList

/-- The source's header test: the whole first line, lowercased, contains
"hex", "color" or "name". -/
def lineHasHeaderKeyword (line : String) : Bool :=
  strContains (lowerStr line) "hex" || strContains (lowerStr line) "color" ||
    strContains (lowerStr line) "name"

/-- Header rule as the spec words it, for comparison with the code's rule:
only the first comma-separated field is inspected for the keywords. -/
def specFirstFieldHasHeaderKeyword (line : String) : Bool :=
  let f := lowerStr (((splitStr ',' line).map jsTrim).headD "")
  strContains f "hex" || strContains f "color" || strContains f "name"

/-- JS `parseInt(s)` (radix auto-detection): skip leading whitespace, an
optional sign, a `0x`/`0X` hex prefix, then the maximal digit prefix;
`none` is `NaN`. -/
def parseIntJS (s : String) : Option ℤ :=
  let l := s.toList.dropWhile Char.isWhitespace
  let signAndRest : ℤ × List Char :=
    match l with
    | '-' :: r => (-1, r)
    | '+' :: r => (1, r)
    | r => (1, r)
  let sign := signAndRest.1
  let rest := signAndRest.2
  match rest with
  | '0' :: x :: r =>
    if x = 'x' ∨ x = 'X' then
      let ds := r.takeWhile (fun c => (hexDigitVal c).isSome)
      if ds = [] then none
      else some (sign * (ds.foldl (fun a c => a * 16 + (((hexDigitVal c).getD 0 : ℤ))) (0 : ℤ)))
    else
      let ds := rest.takeWhile Char.isDigit
      some (sign * (ds.foldl (fun a c => a * 10 + ((c.toNat - '0'.toNat) : ℤ)) (0 : ℤ)))
  | _ =>
    let ds := rest.takeWhile Char.isDigit
    if ds = [] then none
    else some (sign * (ds.foldl (fun a c => a * 10 + ((c.toNat - '0'.toNat) : ℤ)) (0 : ℤ)))

/-- Quantity of one CSV line: `parseInt(parts[1]) || Infinity` — a missing
field, an unparsable field, and a field parsing to 0 (falsy) all become
`Infinity`. -/
def csvQuantity (parts : List String) : Qty :=
  match parts.get? 1 with
  | none => .inf
  | some q =>
    match parseIntJS q with
    | none => .inf
    | some n => if n = 0 then .inf else .fin n

/-- The strict `^#[0-9a-f]{6}$/i` validation applied to CSV hex fields. -/
def isValidHexCsv (s : String) : Bool :=
  match s.toList with
  | '#' :: rest =>
    rest.length = 6 &&
      rest.all (fun c => c.isDigit || ('a' ≤ c && c ≤ 'f') || ('A' ≤ c && c ≤ 'F'))
  | _ => false

/-- Accumulator of the CSV line loop: the running N/A counter and the
special and regular entry lists. -/
structure CsvState where
  naCount : Nat
  specialColors : List PaletteEntry
  regularColors : List PaletteEntry
deriving DecidableEq, Repr

/-- Body of the `lines.slice(startIndex).forEach` loop in
`handlePaletteImport`: split on commas, trim, read `name, quantity, hex`;
an empty/`n/a` hex makes the first such row the clear entry and the second
the disney entry (later ones only bump the counter); other rows are kept
only when the (canonicalized, `#`-prefixed) hex passes the strict pattern. -/
def csvProcessLine (st : CsvState) (line : String) : CsvState :=
  let parts := (splitStr ',' line).map jsTrim
  let name : Option String :=
    match parts.get? 0 with
    | some s => if s = "" then none else some s
    | none => none
  let quantity := csvQuantity parts
  let hex0 := ((parts.get? 2).map lowerStr).getD ""
  if hex0 = "n/a" ∨ hex0 = "na" ∨ hex0 = "" then
    let na := st.naCount + 1
    if na = 1 then
      { st with
        naCount := na,
        specialColors := st.specialColors ++
          [{ hex := "clear", quantity := quantity, name := some (jsOrStr name "Clear") }] }
    else if na = 2 then
      { st with
        naCount := na,
        specialColors := st.specialColors ++
          [{ hex := "disney", quantity := quantity, name := some (jsOrStr name "Disney") }] }
    else { st with naCount := na }
  else
    let hex := if ¬ startsWithHash hex0 then "#" ++ hex0 else hex0
    if isValidHexCsv hex then
      { st with regularColors := st.regularColors ++
          [{ hex := hex, quantity := quantity, name := name }] }
    else st

/-- The nonempty (after trimming) lines of the imported text. -/
def csvLines (content : String) : List String :=
  (splitStr '\n' content).filter (fun l => jsTrim l ≠ "")

/-- Index of the first data line: 1 when the first line looks like a header,
else 0 (the source reads `lines[0]`, so callers guarantee a nonempty file). -/
def csvStartIndex (lines : List String) : Nat :=
  if lineHasHeaderKeyword (lines.headD "") then 1 else 0

/-- The data lines the import actually processes. -/
def csvDataLines (content : String) : List String :=
  let lines := csvLines content
  lines.drop (csvStartIndex lines)

/-- CSV branch of `handlePaletteImport`: process the data lines, sort the
regular colors by hue ascending (stable), and when anything was imported
produce the new palette, special entries first. `none` means the palette
state is left untouched. -/
def importCsvPalette (content : String) : Option (List PaletteEntry) :=
  let st := (csvDataLines content).foldl csvProcessLine ⟨0, [], []⟩
  let sortedRegulars :=
    sortStable (fun a b => getHue a.hex < getHue b.hex) st.regularColors
  if st.specialColors ≠ [] ∨ st.regularColors ≠ [] then
    some (st.specialColors ++ sortedRegulars)
  else none

/-- A serialized palette item: the legacy form is a bare string, the current
form an object. -/
inductive PalItem where
  | str (s : String)
  | obj (e : PaletteEntry)
deriving DecidableEq, Repr

/-- Embedding of `normalizePalette`: legacy strings become unlimited-supply
entries (the source's conditional assigns `Infinity` on both branches). -/
def normalizePalette (palette : List PalItem) : List PaletteEntry :=
  palette.map fun item =>
    match item with
    | .str s =>
      { hex := s, quantity := .inf, name := if s = "clear" then some "Clear" else none }
    | .obj e => e

/-- Modelled from the spec: `CLEAR_PALETTE_ITEM`, the clear entry synthesized
and prepended when a loaded palette lacks one, is referenced by
`handleFileLoad` but its definition is not part of the provided sources. -/
def CLEAR_PALETTE_ITEM : PaletteEntry :=
  { hex := "clear", quantity := .inf, name := some "Clear" }

/-- A parsed project document; each field is present or absent. A `palette`
that is present but not an array behaves as absent (`Array.isArray` guard). -/
structure ProjectDoc where
  rows : Option ℤ
  columns : Option ℤ
  cells : Option Grid
  palette : Option (List PalItem)

/-- JS truthiness of an optional number (`0` is falsy). -/
def numTruthy : Option ℤ → Bool
  | none => false
  | some n => n ≠ 0

/-- The in-memory state the project-load claim talks about: the row/column
inputs, the grid with its history, and the palette. (Zoom and the
save-reminder snapshot also change on a successful load; they belong to the
excluded presentation layer.) -/
structure AppState where
  rowInput : ℤ
  colInput : ℤ
  hist : HistoryState
  palette : List PaletteEntry
deriving DecidableEq, Repr

/-- Embedding of the `reader.onload` body of `handleFileLoad`. The argument
is the outcome of `JSON.parse` (`none` = parse threw, caught by the handler
which alerts). With all of `rows`, `columns`, `cells` truthy the document is
installed (grid committed to history, palette normalized with a clear entry
ensured); otherwise the body falls through without touching anything and
without any message. The returned flag says whether the user saw an alert. -/
def handleFileLoad (parsed : Option ProjectDoc) (s : AppState) : AppState × Bool :=
  match parsed with
  | none => (s, true)
  | some data =>
    if numTruthy data.rows ∧ numTruthy data.columns ∧ data.cells.isSome then
      let cells := data.cells.getD []
      let s1 := { s with
        rowInput := data.rows.getD 0,
        colInput := data.columns.getD 0,
        hist := commitGrid s.hist cells }
      let s2 :=
        match data.palette with
        | some pal =>
          let normalized := normalizePalette pal
          let hasClear := normalized.any (fun p => p.hex = "clear")
          { s1 with palette := if hasClear then normalized else CLEAR_PALETTE_ITEM :: normalized }
        | none => s1
      (s2, false)
    else (s, false)

/-- The unsorted preference list of a pixel (the palette scan inside
`getColorPreferences`, before its sort). -/
def rawPreferences (pixelHex : String) (palette : List PaletteEntry) : List Pref :=
  (palette.filter (fun p => ¬ (p.hex = "clear" ∨ p.hex = "disney"))).map
    (fun p => { hex := p.hex, distance := colorDistance pixelHex p.hex })

/-- First minimum of a list under a strict comparison: the element a stable
ascending sort puts first. -/
def findMinRec (lt : α → α → Bool) : List α → Option α
  | [] => none
  | x :: xs =>
    match findMinRec lt xs with
    | none => some x
    | some m => if lt m x then some m else some x

/-- What one all-supplies-unlimited rationing round does to a pixel: an
unassigned pixel receives its top preference, or `'clear'` when it has
none; other pixels are untouched. -/
def assignBest (px : PixelPref) : PixelPref :=
  if px.assigned = none then
    match px.preferences.head? with
    | some pr => { px with assigned := some pr.hex }
    | none => { px with assigned := some "clear" }
  else px

/-- Index-membership of a pixel index in a group list. -/
def inGroups (gs : List (String × List (Nat × JsDist))) (j : Nat) (h : String) : Prop :=
  ∃ g ∈ gs, g.1 = h ∧ j ∈ g.2.map Prod.fst

/-- A cell value the assignment engine may produce: the clear sentinel or
the hex of some palette entry. -/
def pxAllowed (palette : List PaletteEntry) (hx : String) : Prop :=
  hx = "clear" ∨ ∃ e ∈ palette, hx = e.hex

/-- Invariant of one `pixelPrefs` entry: its assignment (when present) and
all its ranked preference hexes come from the palette or are the clear
sentinel. -/
def PxOk (palette : List PaletteEntry) (px : PixelPref) : Prop :=
  (px.assigned = none ∨ ∃ hx, px.assigned = some hx ∧ pxAllowed palette hx) ∧
    ∀ pr ∈ px.preferences, pxAllowed palette pr.hex

/-- Cell of a grid at a row/column index, with JS-style defaults. -/
def cellAt (g : Grid) (i j : Nat) : String :=
  (g.getD i []).getD j ""

theorem saveToHistory_inv (s : HistoryState) (g : Grid)
    (h1 : s.historyIndex < s.history.length) (h2 : s.history.length ≤ 50) :
    (saveToHistory s g).historyIndex < (saveToHistory s g).history.length ∧
      (saveToHistory s g).history.length ≤ 50 := by
  unfold saveToHistory
  by_cases hs : s.isUndoRedo
  · simp [hs, h1, h2]
  · have hplen : (s.history.take (s.historyIndex + 1) ++ [g]).length = s.historyIndex + 2 := by
      simp [List.length_take]; omega
    simp only [hs, if_false, Bool.false_eq_true, hplen, MAX_HISTORY]
    by_cases hev : 50 < s.historyIndex + 2
    · simp only [hev, if_true]
      refine ⟨?_, ?_⟩ <;>
        simp only [List.length_tail, List.length_append, List.length_take,
          List.length_cons, List.length_nil] <;> omega
    · simp only [hev, if_false]
      refine ⟨?_, ?_⟩ <;>
        simp only [List.length_append, List.length_take,
          List.length_cons, List.length_nil] <;> omega

theorem histInv_applyOp (s : HistoryState) (op : HistOp)
    (h1 : s.historyIndex < s.history.length) (h2 : s.history.length ≤ 50) :
    (applyHistOp s op).historyIndex < (applyHistOp s op).history.length ∧
      (applyHistOp s op).history.length ≤ 50 := by
  cases op with
  | commit g =>
    have := saveToHistory_inv s g h1 h2
    simpa [applyHistOp, commitGrid] using this
  | undo =>
    unfold applyHistOp undo
    by_cases hp : 0 < s.historyIndex
    · simp [hp]; omega
    · simp [hp, h1, h2]
  | redo =>
    unfold applyHistOp redo
    by_cases hp : s.historyIndex < s.history.length - 1
    · simp [hp]; omega
    · simp [hp, h1, h2]

theorem histInv_run (ops : List HistOp) (s : HistoryState)
    (h1 : s.historyIndex < s.history.length) (h2 : s.history.length ≤ 50) :
    (runHistOps ops s).historyIndex < (runHistOps ops s).history.length ∧
      (runHistOps ops s).history.length ≤ 50 := by
  induction ops generalizing s with
  | nil => exact ⟨h1, h2⟩
  | cons op rest ih =>
    have h := histInv_applyOp s op h1 h2
    simpa [runHistOps, List.foldl_cons] using ih (applyHistOp s op) h.1 h.2

/-- C2: starting from the initialized history (one snapshot, pointer 0),
every sequence of commit/undo/redo operations keeps the log at most 50
entries long with the pointer strictly inside it (the commit path truncates
at `pointer+1`, appends a snapshot, evicts the oldest entry past the bound
and clamps the pointer to 49, which is what preserves the invariant). -/
theorem historyBoundInvariant (g0 : Grid) (ops : List HistOp) :
    (runHistOps ops (initHistoryState g0)).history.length ≤ 50 ∧
      (runHistOps ops (initHistoryState g0)).historyIndex <
        (runHistOps ops (initHistoryState g0)).history.length := by
  have h := histInv_run ops (initHistoryState g0) (by simp [initHistoryState])
    (by simp [initHistoryState])
  exact ⟨h.2, h.1⟩

theorem getElem?_of_getD (l : List Grid) (i : Nat) (hi : i < l.length)
    (h : l.getD i [] = g) : l[i]? = some g := by
  rw [List.getD_eq_getElem?_getD, List.getElem?_eq_getElem hi] at h
  rw [List.getElem?_eq_getElem hi]
  simpa using h

/-- C1: from any well-formed engine state (suppress flag unset, pointer
inside a log of at most 50 entries whose pointed snapshot is the live
grid), committing a mutated grid and then undoing installs the pre-mutation
grid, and redoing right after the undo installs the mutated grid again —
also when the commit evicted the oldest entry at the 50-entry bound. -/
theorem commitUndoRedoRoundtrip (s : HistoryState) (g' : Grid)
    (hflag : s.isUndoRedo = false) (hlen : s.history.length ≤ 50)
    (hp : s.historyIndex < s.history.length)
    (hcur : s.history.getD s.historyIndex [] = s.grid) :
    (undo (commitGrid s g')).grid = s.grid ∧
      (redo (undo (commitGrid s g'))).grid = g' := by
  obtain ⟨sg, sh, si, sf⟩ := s
  simp only at hflag hlen hp hcur
  subst hflag
  have hget : sh[si]? = some sg := getElem?_of_getD sh si hp hcur
  have hplen : (sh.take (si + 1) ++ [g']).length = si + 2 := by
    simp [List.length_take]; omega
  by_cases hev : 50 < si + 2
  · -- eviction case: the pointer was at 49 in a full log of 50
    have hsi : si = 49 := by omega
    have hL : sh.length = 50 := by omega
    have hKeep : sh.take (si + 1) = sh := List.take_of_length_le (by omega)
    have hne : sh ≠ [] := by
      intro h; rw [h] at hL; simp at hL
    have htlen : sh.tail.length = 49 := by
      simp [List.length_tail, hL]
    have hc : commitGrid ⟨sg, sh, si, false⟩ g' =
        ⟨g', sh.tail ++ [g'], 49, false⟩ := by
      simp only [commitGrid, saveToHistory, MAX_HISTORY, Bool.false_eq_true, if_false,
        hKeep]
      simp [hL, hsi, List.tail_append_of_ne_nil hne]
    rw [hc]
    have hu : undo ⟨g', sh.tail ++ [g'], 49, false⟩ =
        ⟨(sh.tail ++ [g']).getD 48 [], sh.tail ++ [g'], 48, true⟩ := by
      simp [undo]
    rw [hu]
    have hg48 : (sh.tail ++ [g']).getD 48 [] = sg := by
      rw [List.getD_eq_getElem?_getD, List.getElem?_append, if_pos (by omega),
        List.getElem?_tail]
      rw [hsi] at hget
      simp [hget]
    refine ⟨hg48, ?_⟩
    have hal : (sh.tail ++ [g']).length = 50 := by simp [htlen]
    have hrcond : (48 : Nat) < (sh.tail ++ [g']).length - 1 := by omega
    simp only [redo, hrcond, if_true]
    rw [List.getD_eq_getElem?_getD, List.getElem?_append_right (by omega)]
    simp [htlen]
  · -- no eviction: the pointer advances to the new final entry
    have hidx : min (si + 1) 49 = si + 1 := by omega
    have hktake : (sh.take (si + 1)).length = si + 1 := by
      simp [List.length_take]; omega
    have hc : commitGrid ⟨sg, sh, si, false⟩ g' =
        ⟨g', sh.take (si + 1) ++ [g'], si + 1, false⟩ := by
      simp only [commitGrid, saveToHistory, MAX_HISTORY, Bool.false_eq_true, if_false]
      rw [hplen]
      simp [hev, hidx]
    rw [hc]
    have hu : undo ⟨g', sh.take (si + 1) ++ [g'], si + 1, false⟩ =
        ⟨(sh.take (si + 1) ++ [g']).getD si [], sh.take (si + 1) ++ [g'], si, true⟩ := by
      simp [undo]
    rw [hu]
    have hgsi : (sh.take (si + 1) ++ [g']).getD si [] = sg := by
      rw [List.getD_eq_getElem?_getD, List.getElem?_append, if_pos (by omega),
        List.getElem?_take, if_pos (by omega)]
      simp [hget]
    refine ⟨hgsi, ?_⟩
    have hrcond : si < (sh.take (si + 1) ++ [g']).length - 1 := by omega
    simp only [redo, hrcond, if_true]
    rw [List.getD_eq_getElem?_getD, List.getElem?_append_right (by omega)]
    simp [hktake]

/-- Witness for C1 at the eviction bound: a full 50-entry log with the
pointer at 49; the committed grid is recovered by redo and the pre-mutation
grid by undo. -/
theorem commitUndoRedoRoundtrip_witness :
    (undo (commitGrid
        ⟨[["#ff0000"]], List.replicate 49 [["clear"]] ++ [[["#ff0000"]]], 49, false⟩
        [["#0000ff"]])).grid = [["#ff0000"]] ∧
      (redo (undo (commitGrid
        ⟨[["#ff0000"]], List.replicate 49 [["clear"]] ++ [[["#ff0000"]]], 49, false⟩
        [["#0000ff"]]))).grid = [["#0000ff"]] :=
  commitUndoRedoRoundtrip
    ⟨[["#ff0000"]], List.replicate 49 [["clear"]] ++ [[["#ff0000"]]], 49, false⟩
    [["#0000ff"]] rfl (by simp) (by simp) (by simp [List.getD_eq_getElem?_getD,
      List.getElem?_append_right])

theorem setCell_length (g : Grid) (a b : Nat) (v : String) :
    (setCell g a b v).length = g.length := by
  simp [setCell]

theorem setCell_rect (g : Grid) (C a b : Nat) (v : String)
    (hrect : ∀ row ∈ g, row.length = C) (ha : a < g.length) (hb : b < C) :
    ∀ row ∈ setCell g a b v, row.length = C := by
  intro row hrow
  rcases List.mem_or_eq_of_mem_set hrow with h | h
  · exact hrect _ h
  · subst h
    rw [List.length_set]
    have hmem : g.getD a [] ∈ g := by
      rw [List.getD_eq_getElem?_getD, List.getElem?_eq_getElem ha]
      exact List.getElem_mem ha
    exact hrect _ hmem

theorem headLenD (g : Grid) (C : Nat) (hne : g ≠ [])
    (hrect : ∀ row ∈ g, row.length = C) :
    (g.head?.map List.length).getD 0 = C := by
  cases g with
  | nil => exact absurd rfl hne
  | cons a l =>
    simp only [List.head?_cons, Option.map_some, Option.getD_some]
    exact hrect a (List.mem_cons_self a l)

theorem cellAt_setCell (g : Grid) (C : Nat) (a b i j : Nat) (v : String)
    (hrect : ∀ row ∈ g, row.length = C) (ha : a < g.length) (hb : b < C) :
    cellAt (setCell g a b v) i j =
      if a = i ∧ b = j then v else cellAt g i j := by
  have hrowlen : (g.getD a []).length = C := by
    have hmem : g.getD a [] ∈ g := by
      rw [List.getD_eq_getElem?_getD, List.getElem?_eq_getElem ha]
      exact List.getElem_mem ha
    exact hrect _ hmem
  unfold cellAt setCell
  simp only [List.getD_eq_getElem?_getD] at hrowlen ⊢
  rw [List.getElem?_set]
  by_cases hai : a = i
  · subst hai
    simp only [if_pos rfl, ha, if_true]
    rw [Option.getD_some, List.getElem?_set]
    by_cases hbj : b = j
    · subst hbj
      simp [hrowlen, hb]
    · simp [hbj]
  · simp [hai]


/-- C5: with mirror mode `both` on a rectangular R×C grid, painting an
in-bounds cell `(r, c)` sets exactly the four cells `(r, c)`, `(r, C−1−c)`,
`(R−1−r, c)`, `(R−1−r, C−1−c)` to the selected color, leaves every other
cell untouched, and preserves the grid's dimensions (every mirrored target
of an in-bounds cell is itself in bounds, and the per-target bounds check
drops out-of-range targets instead of erroring). -/
theorem mirrorBothPaintsExactlyFourCells (g : Grid) (R C r c : Nat) (color : String)
    (hR : g.length = R) (hrect : ∀ row ∈ g, row.length = C)
    (hr : r < R) (hc : c < C) :
    (paintCell "both" g (r : ℤ) (c : ℤ) color).length = R ∧
      (∀ row ∈ paintCell "both" g (r : ℤ) (c : ℤ) color, row.length = C) ∧
      (∀ i j, i < R → j < C →
        cellAt (paintCell "both" g (r : ℤ) (c : ℤ) color) i j =
          if (i = r ∨ i = R - 1 - r) ∧ (j = c ∨ j = C - 1 - c) then color
          else cellAt g i j) := by
  have hne : g ≠ [] := by
    intro h
    rw [h] at hR
    simp at hR
    omega
  have hhead : (g.head?.map List.length).getD 0 = C := headLenD g C hne hrect
  have hposL : getMirroredPositions "both" g (r : ℤ) (c : ℤ) =
      [((r : ℤ), (c : ℤ)), ((r : ℤ), ((C - 1 - c : ℕ) : ℤ)),
       (((R - 1 - r : ℕ) : ℤ), (c : ℤ)),
       (((R - 1 - r : ℕ) : ℤ), ((C - 1 - c : ℕ) : ℤ))] := by
    have hcastC : ((g.head?.map List.length).getD 0 : ℤ) - 1 - (c : ℤ) =
        ((C - 1 - c : ℕ) : ℤ) := by
      rw [hhead]; omega
    have hcastR : ((g.length : ℕ) : ℤ) - 1 - (r : ℤ) = ((R - 1 - r : ℕ) : ℤ) := by
      rw [hR]; omega
    simp [getMirroredPositions, hcastC, hcastR]
  -- step 1
  have l1 : (setCell g r c color).length = R := by rw [setCell_length, hR]
  have r1 : ∀ row ∈ setCell g r c color, row.length = C :=
    setCell_rect g C r c color hrect (by rw [hR]; exact hr) hc
  have n1 : setCell g r c color ≠ [] := by
    intro h; rw [h] at l1; simp at l1; omega
  have h1 : ((setCell g r c color).head?.map List.length).getD 0 = C :=
    headLenD _ C n1 r1
  -- step 2
  have l2 : (setCell (setCell g r c color) r (C - 1 - c) color).length = R := by
    rw [setCell_length, l1]
  have r2 : ∀ row ∈ setCell (setCell g r c color) r (C - 1 - c) color, row.length = C :=
    setCell_rect _ C r (C - 1 - c) color r1 (by rw [l1]; exact hr) (by omega)
  have n2 : setCell (setCell g r c color) r (C - 1 - c) color ≠ [] := by
    intro h; rw [h] at l2; simp at l2; omega
  have h2 : ((setCell (setCell g r c color) r (C - 1 - c) color).head?.map
      List.length).getD 0 = C := headLenD _ C n2 r2
  -- step 3
  have l3 : (setCell (setCell (setCell g r c color) r (C - 1 - c) color)
      (R - 1 - r) c color).length = R := by rw [setCell_length, l2]
  have r3 : ∀ row ∈ setCell (setCell (setCell g r c color) r (C - 1 - c) color)
      (R - 1 - r) c color, row.length = C :=
    setCell_rect _ C (R - 1 - r) c color r2 (by rw [l2]; omega) hc
  have n3 : setCell (setCell (setCell g r c color) r (C - 1 - c) color)
      (R - 1 - r) c color ≠ [] := by
    intro h; rw [h] at l3; simp at l3; omega
  have h3 : ((setCell (setCell (setCell g r c color) r (C - 1 - c) color)
      (R - 1 - r) c color).head?.map List.length).getD 0 = C := headLenD _ C n3 r3
  have hfold : paintCell "both" g (r : ℤ) (c : ℤ) color =
      setCell (setCell (setCell (setCell g r c color) r (C - 1 - c) color)
        (R - 1 - r) c color) (R - 1 - r) (C - 1 - c) color := by
    rw [paintCell, hposL]
    simp only [List.foldl_cons, List.foldl_nil, Int.toNat_natCast]
    have c1 : (0 : ℤ) ≤ (r : ℤ) ∧ (r : ℤ) < ((List.length g : ℕ) : ℤ) ∧
        (0 : ℤ) ≤ (c : ℤ) ∧
        (c : ℤ) < (((Option.map List.length (List.head? g)).getD 0 : ℕ) : ℤ) := by
      rw [hR, hhead]; omega
    rw [if_pos c1]
    have c2 : (0 : ℤ) ≤ (r : ℤ) ∧
        (r : ℤ) < ((List.length (setCell g r c color) : ℕ) : ℤ) ∧
        (0 : ℤ) ≤ ((C - 1 - c : ℕ) : ℤ) ∧
        ((C - 1 - c : ℕ) : ℤ) <
          (((Option.map List.length (List.head? (setCell g r c color))).getD 0 : ℕ) : ℤ) := by
      rw [l1, h1]; omega
    rw [if_pos c2]
    have c3 : (0 : ℤ) ≤ ((R - 1 - r : ℕ) : ℤ) ∧
        ((R - 1 - r : ℕ) : ℤ) <
          ((List.length (setCell (setCell g r c color) r (C - 1 - c) color) : ℕ) : ℤ) ∧
        (0 : ℤ) ≤ (c : ℤ) ∧
        (c : ℤ) < (((Option.map List.length
          (List.head? (setCell (setCell g r c color) r (C - 1 - c) color))).getD 0 : ℕ) : ℤ) := by
      rw [l2, h2]; omega
    rw [if_pos c3]
    have c4 : (0 : ℤ) ≤ ((R - 1 - r : ℕ) : ℤ) ∧
        ((R - 1 - r : ℕ) : ℤ) <
          ((List.length (setCell (setCell (setCell g r c color) r (C - 1 - c) color)
            (R - 1 - r) c color) : ℕ) : ℤ) ∧
        (0 : ℤ) ≤ ((C - 1 - c : ℕ) : ℤ) ∧
        ((C - 1 - c : ℕ) : ℤ) < (((Option.map List.length
          (List.head? (setCell (setCell (setCell g r c color) r (C - 1 - c) color)
            (R - 1 - r) c color))).getD 0 : ℕ) : ℤ) := by
      rw [l3, h3]; omega
    rw [if_pos c4]
  rw [hfold]
  refine ⟨by rw [setCell_length, l3], ?_, ?_⟩
  · exact setCell_rect _ C (R - 1 - r) (C - 1 - c) color r3 (by rw [l3]; omega) (by omega)
  · intro i j hi hj
    rw [cellAt_setCell _ C (R - 1 - r) (C - 1 - c) i j color r3 (by rw [l3]; omega) (by omega)]
    rw [cellAt_setCell _ C (R - 1 - r) c i j color r2 (by rw [l2]; omega) hc]
    rw [cellAt_setCell _ C r (C - 1 - c) i j color r1 (by rw [l1]; exact hr) (by omega)]
    rw [cellAt_setCell g C r c i j color hrect (by rw [hR]; exact hr) hc]
    split_ifs <;> first | rfl | omega

theorem mirrorBothPaintsExactlyFourCells_witness :
    cellAt (paintCell "both" [["a", "b", "c"]] ((0 : ℕ) : ℤ) ((0 : ℕ) : ℤ) "#ff0000") 0 0 = "#ff0000" ∧
      cellAt (paintCell "both" [["a", "b", "c"]] ((0 : ℕ) : ℤ) ((0 : ℕ) : ℤ) "#ff0000") 0 1 = "b" ∧
      cellAt (paintCell "both" [["a", "b", "c"]] ((0 : ℕ) : ℤ) ((0 : ℕ) : ℤ) "#ff0000") 0 2 = "#ff0000" := by
  obtain ⟨-, -, h⟩ := mirrorBothPaintsExactlyFourCells [["a", "b", "c"]] 1 3 0 0 "#ff0000"
    rfl (by decide) (by decide) (by decide)
  refine ⟨?_, ?_, ?_⟩
  · rw [h 0 0 (by decide) (by decide)]; norm_num
  · rw [h 0 1 (by decide) (by decide)]; norm_num [cellAt]
  · rw [h 0 2 (by decide) (by decide)]; norm_num

theorem filterIdxAux_length (s a : Nat) (l : List α) : ∀ k,
    (filterIdxAux (fun i => decide (i < s) || decide (s + a ≤ i)) k l).length =
      min l.length (s - k) + (l.length - (s + a - k)) := by
  induction l with
  | nil => intro k; simp [filterIdxAux]
  | cons x xs ih =>
    intro k
    by_cases hp : k < s ∨ s + a ≤ k
    · have hb : (decide (k < s) || decide (s + a ≤ k)) = true := by
        rcases hp with h | h <;> simp [h]
      simp only [filterIdxAux, hb, if_true, List.length_cons]
      rw [ih (k + 1)]
      omega
    · have hb : (decide (k < s) || decide (s + a ≤ k)) = false := by
        push_neg at hp
        simp [hp.1, hp.2]
      simp only [filterIdxAux, hb, Bool.false_eq_true, if_false, List.length_cons]
      rw [ih (k + 1)]
      omega

theorem filterIdxAux_subset (p : Nat → Bool) (l : List α) : ∀ k x,
    x ∈ filterIdxAux p k l → x ∈ l := by
  induction l with
  | nil => intro k x h; simpa [filterIdxAux] using h
  | cons y ys ih =>
    intro k x h
    simp only [filterIdxAux] at h
    by_cases hp : p k = true
    · rw [if_pos hp] at h
      rcases List.mem_cons.mp h with h' | h'
      · exact h' ▸ List.mem_cons_self y ys
      · exact List.mem_cons_of_mem y (ih (k + 1) x h')
    · rw [if_neg hp] at h
      exact List.mem_cons_of_mem y (ih (k + 1) x h)

/-- C6: deleting rows or columns clamps the effective count to the current
size minus one, so the grid always keeps at least one row and one column; a
request for more than is available is silently capped (when the clamped
range fits inside the grid, exactly `min count (size − 1)` lines
disappear). -/
theorem deleteClampedKeepsGridNonempty (g : Grid) (start count R C : Nat)
    (hR : g.length = R) (hrect : ∀ row ∈ g, row.length = C)
    (hR1 : 1 ≤ R) (hC1 : 1 ≤ C) :
    (1 ≤ (deleteRows g start count).length ∧
      (∀ row ∈ deleteRows g start count, row.length = C) ∧
      (start + min count (R - 1) ≤ R →
        (deleteRows g start count).length = R - min count (R - 1))) ∧
    ((deleteColumns g start count).length = R ∧
      (∀ row ∈ deleteColumns g start count, 1 ≤ row.length) ∧
      (start + min count (C - 1) ≤ C →
        ∀ row ∈ deleteColumns g start count, row.length = C - min count (C - 1))) := by
  have hne : g ≠ [] := by
    intro h
    rw [h] at hR
    simp at hR
    omega
  have hhead : (g.head?.map List.length).getD 0 = C := headLenD g C hne hrect
  constructor
  · simp only [deleteRows, filterIdx, hR]
    by_cases hz : min count (R - 1) = 0
    · rw [if_pos hz]
      exact ⟨by omega, hrect, by intro _; omega⟩
    · rw [if_neg hz]
      have hlen := filterIdxAux_length start (min count (R - 1)) g 0
      refine ⟨?_, ?_, ?_⟩
      · rw [hlen]; omega
      · intro row hrow
        exact hrect row (filterIdxAux_subset _ g 0 row hrow)
      · intro hfit
        rw [hlen]
        omega
  · simp only [deleteColumns, filterIdx, hhead]
    by_cases hz : min count (C - 1) = 0
    · rw [if_pos hz]
      refine ⟨hR, ?_, ?_⟩
      · intro row hrow
        rw [hrect row hrow]
        omega
      · intro _ row hrow
        rw [hrect row hrow]
        omega
    · rw [if_neg hz]
      refine ⟨by rw [List.length_map, hR], ?_, ?_⟩
      · intro row hrow
        obtain ⟨row0, hmem, hrow0⟩ := List.mem_map.mp hrow
        subst hrow0
        have hlen := filterIdxAux_length start (min count (C - 1)) row0 0
        rw [hlen, hrect row0 hmem]
        omega
      · intro hfit row hrow
        obtain ⟨row0, hmem, hrow0⟩ := List.mem_map.mp hrow
        subst hrow0
        have hlen := filterIdxAux_length start (min count (C - 1)) row0 0
        rw [hlen, hrect row0 hmem]
        omega

theorem deleteClampedKeepsGridNonempty_witness :
    1 ≤ (deleteRows [["a"], ["b"], ["c"]] 0 99).length ∧
      (deleteColumns [["a", "b", "c"]] 1 99).length = 1 :=
  ⟨(deleteClampedKeepsGridNonempty [["a"], ["b"], ["c"]] 0 99 3 1 rfl (by decide)
      (by decide) (by decide)).1.1,
    (deleteClampedKeepsGridNonempty [["a", "b", "c"]] 1 99 1 3 rfl (by decide)
      (by decide) (by decide)).2.1⟩

/-- Counterexample to C7: a project file that parses but lacks the required
`rows` field is rejected with the prior state fully preserved — yet no
user-visible message is produced (the alert flag is `false`), contradicting
the claim that the failure is always surfaced to the user. -/
theorem loadMissingFieldSilent_counterexample :
    handleFileLoad
        (some { rows := none, columns := some 3, cells := some [["clear"]],
                palette := none })
        { rowInput := 5, colInput := 8,
          hist := { grid := [["clear"]], history := [[["clear"]]],
                    historyIndex := 0, isUndoRedo := false },
          palette := [{ hex := "clear", quantity := .inf, name := some "Clear" }] } =
      ({ rowInput := 5, colInput := 8,
         hist := { grid := [["clear"]], history := [[["clear"]]],
                   historyIndex := 0, isUndoRedo := false },
         palette := [{ hex := "clear", quantity := .inf, name := some "Clear" }] },
        false) := by
  rfl

/-- C7 (amended): a malformed project file never touches the in-memory
state; a parse failure is additionally surfaced with an alert, while a
document missing any required field (`rows`, `columns`, `cells`) is
rejected silently, with no message. -/
theorem loadRejectLeavesStateUnchanged (parsed : Option ProjectDoc) (s : AppState) :
    (parsed = none → handleFileLoad parsed s = (s, true)) ∧
      (∀ d, parsed = some d →
        ¬ (numTruthy d.rows ∧ numTruthy d.columns ∧ d.cells.isSome) →
        handleFileLoad parsed s = (s, false)) := by
  constructor
  · intro h
    subst h
    rfl
  · intro d hd hmiss
    subst hd
    simp only [handleFileLoad]
    rw [if_neg hmiss]

theorem loadRejectLeavesStateUnchanged_witness :
    handleFileLoad none
        { rowInput := 5, colInput := 8,
          hist := { grid := [["clear"]], history := [[["clear"]]],
                    historyIndex := 0, isUndoRedo := false },
          palette := [] } =
      ({ rowInput := 5, colInput := 8,
         hist := { grid := [["clear"]], history := [[["clear"]]],
                   historyIndex := 0, isUndoRedo := false },
         palette := [] }, true) :=
  (loadRejectLeavesStateUnchanged none
    { rowInput := 5, colInput := 8,
      hist := { grid := [["clear"]], history := [[["clear"]]],
                historyIndex := 0, isUndoRedo := false },
      palette := [] }).1 rfl

/-- Counterexample to C8: the line `"Blue,hex,#0000ff"` has first field
`"Blue"`, which contains none of the keywords, so by the claim it should be
imported as a data row — but the code scans the whole line, finds `"hex"`
in the third field, and skips the line as a header (only the second line is
imported). -/
theorem csvHeaderWholeLine_counterexample :
    csvStartIndex (csvLines "Blue,hex,#0000ff\nRed,2,#ff0000") = 1 ∧
      specFirstFieldHasHeaderKeyword "Blue,hex,#0000ff" = false ∧
      importCsvPalette "Blue,hex,#0000ff\nRed,2,#ff0000" =
        some [{ hex := "#ff0000", quantity := .fin 2, name := some "Red" }] := by
  refine ⟨by decide, by decide, by decide⟩

/-- C8 (amended): the first line is detected as a header and skipped if and
only if the whole line (not just its first field), lowercased, contains
"hex", "color" or "name". -/
theorem csvHeaderSkipIffLineKeyword (content : String) :
    (csvStartIndex (csvLines content) = 1 ↔
      lineHasHeaderKeyword ((csvLines content).headD "") = true) ∧
      csvDataLines content =
        (if lineHasHeaderKeyword ((csvLines content).headD "") then
          (csvLines content).tail
        else csvLines content) := by
  constructor
  · unfold csvStartIndex
    by_cases hk : lineHasHeaderKeyword ((csvLines content).headD "") = true
    · rw [if_pos hk]
      exact iff_of_true rfl hk
    · rw [if_neg hk]
      exact iff_of_false (by omega) hk
  · simp only [csvDataLines, csvStartIndex]
    by_cases hk : lineHasHeaderKeyword ((csvLines content).headD "") = true
    · rw [if_pos hk, List.drop_one, if_pos hk]
    · rw [if_neg hk, List.drop_zero, if_neg hk]

/-- C10: a CSV palette line whose quantity field parses to 0 (for example
the literal `"0"`) produces entries with unlimited quantity — zero is falsy
in `parseInt(parts[1]) || Infinity`, so a zero-supply color cannot be
expressed through the delimited import. -/
theorem csvZeroQuantityBecomesUnlimited (st : CsvState) (line : String) (q : String)
    (hq : ((splitStr ',' line).map jsTrim).get? 1 = some q)
    (h0 : parseIntJS q = some 0) :
    (∀ e ∈ (csvProcessLine st line).specialColors,
        e ∈ st.specialColors ∨ e.quantity = .inf) ∧
      (∀ e ∈ (csvProcessLine st line).regularColors,
        e ∈ st.regularColors ∨ e.quantity = .inf) := by
  have hquant : csvQuantity ((splitStr ',' line).map jsTrim) = .inf := by
    unfold csvQuantity
    rw [hq]
    simp [h0]
  simp only [csvProcessLine, hquant]
  split_ifs <;>
    refine ⟨fun e he => ?_, fun e he => ?_⟩ <;>
    first
      | exact Or.inl he
      | (rcases List.mem_append.mp he with h | h
         · exact Or.inl h
         · simp only [List.mem_singleton] at h
           subst h
           exact Or.inr rfl)

theorem csvZeroQuantityBecomesUnlimited_witness :
    ({ hex := "#ff0000", quantity := Qty.inf, name := some "Red" } : PaletteEntry) ∈
        ([] : List PaletteEntry) ∨
      ({ hex := "#ff0000", quantity := Qty.inf,
          name := some "Red" } : PaletteEntry).quantity = Qty.inf :=
  (csvZeroQuantityBecomesUnlimited ⟨0, [], []⟩ "Red,0,#ff0000" "0" (by decide)
      (by decide)).2
    { hex := "#ff0000", quantity := Qty.inf, name := some "Red" } (by decide)

theorem jsOrStr_cases (a : Option String) (b : String) :
    jsOrStr a b = b ∨ ∃ s, a = some s ∧ jsOrStr a b = s := by
  cases a with
  | none => exact Or.inl rfl
  | some s =>
    by_cases h : s = ""
    · simp [jsOrStr, h]
    · exact Or.inr ⟨s, rfl, by simp [jsOrStr, h]⟩

theorem insertStable_mem (lt : α → α → Bool) (x y : α) (l : List α) :
    y ∈ insertStable lt x l ↔ y = x ∨ y ∈ l := by
  induction l with
  | nil => simp [insertStable]
  | cons z zs ih =>
    simp only [insertStable]
    by_cases h : lt z x = true
    · rw [if_pos h]
      simp only [List.mem_cons, ih]
      tauto
    · rw [if_neg h]
      simp only [List.mem_cons]

theorem sortStable_mem (lt : α → α → Bool) (x : α) (l : List α) :
    x ∈ sortStable lt l ↔ x ∈ l := by
  induction l with
  | nil => simp [sortStable]
  | cons z zs ih =>
    simp only [sortStable, List.foldr_cons] at ih ⊢
    rw [insertStable_mem, ih]
    simp

theorem getColorPreferences_allowed (pixelHex : String) (palette : List PaletteEntry) :
    ∀ pr ∈ getColorPreferences pixelHex palette, ∃ e ∈ palette, pr.hex = e.hex := by
  intro pr hpr
  rw [getColorPreferences, sortStable_mem] at hpr
  obtain ⟨p, hp, hmap⟩ := List.mem_map.mp hpr
  exact ⟨p, List.mem_of_mem_filter hp, by rw [← hmap]⟩

theorem mkPixelPref_ok (pixelColors : Grid) (palette : List PaletteEntry) (r c : Nat) :
    PxOk palette (mkPixelPref pixelColors palette r c) := by
  simp only [mkPixelPref, PxOk]
  split_ifs with h
  · refine ⟨Or.inr ⟨"clear", rfl, Or.inl rfl⟩, ?_⟩
    intro pr hpr
    simp only [List.mem_singleton] at hpr
    subst hpr
    exact Or.inl rfl
  · refine ⟨Or.inl rfl, ?_⟩
    intro pr hpr
    exact Or.inr (getColorPreferences_allowed _ _ pr hpr)

theorem phase1Assign_ok (avail : List (String × Qty)) (palette : List PaletteEntry)
    (pixels : List PixelPref) (hok : ∀ px ∈ pixels, PxOk palette px) :
    ∀ px ∈ phase1Assign avail pixels, PxOk palette px := by
  intro px hpx
  obtain ⟨px0, hmem, heq⟩ := List.mem_map.mp hpx
  have h0 := hok px0 hmem
  subst heq
  by_cases hcond : px0.assigned = none ∧ bestAvailable avail px0 = none
  · rw [if_pos hcond]
    refine ⟨Or.inr ⟨_, rfl, ?_⟩, fun pr hpr => h0.2 pr hpr⟩
    rcases jsOrStr_cases ((px0.preferences.head?).map Pref.hex) "clear" with h | ⟨s, hs, h⟩
    · rw [h]
      exact Or.inl rfl
    · rw [h]
      obtain ⟨pr, hpr, hhex⟩ := Option.map_eq_some'.mp hs
      subst hhex
      exact h0.2 pr (List.mem_of_mem_head? (Option.mem_def.mpr hpr))
  · rw [if_neg hcond]
    exact h0

theorem addGroup_key_mem (gs : List (String × List (Nat × JsDist))) (h : String)
    (m : Nat × JsDist) :
    ∀ g ∈ addGroup gs h m, g ∈ gs ∨ g.1 = h := by
  induction gs with
  | nil =>
    intro g hg
    simp only [addGroup, List.mem_singleton] at hg
    subst hg
    exact Or.inr rfl
  | cons g0 rest ih =>
    intro g hg
    simp only [addGroup] at hg
    by_cases hk : g0.1 = h
    · rw [if_pos hk] at hg
      rcases List.mem_cons.mp hg with h' | h'
      · subst h'
        exact Or.inr rfl
      · exact Or.inl (List.mem_cons_of_mem g0 h')
    · rw [if_neg hk] at hg
      rcases List.mem_cons.mp hg with h' | h'
      · exact Or.inl (h' ▸ List.mem_cons_self g0 rest)
      · rcases ih g h' with h'' | h''
        · exact Or.inl (List.mem_cons_of_mem g0 h'')
        · exact Or.inr h''

theorem bestAvailable_mem (avail : List (String × Qty)) (px : PixelPref) (bp : Pref)
    (h : bestAvailable avail px = some bp) : bp ∈ px.preferences :=
  List.mem_of_find?_eq_some h

theorem buildGroupsAux_keys_allowed (palette : List PaletteEntry)
    (avail : List (String × Qty)) (pixels : List PixelPref) :
    ∀ (k : Nat) (gs0 : List (String × List (Nat × JsDist))),
      (∀ g ∈ gs0, pxAllowed palette g.1) →
      (∀ px ∈ pixels, PxOk palette px) →
      ∀ g ∈ buildGroupsAux avail k pixels gs0, pxAllowed palette g.1 := by
  induction pixels with
  | nil =>
    intro k gs0 hgs0 _ g hg
    exact hgs0 g hg
  | cons px rest ih =>
    intro k gs0 hgs0 hok g hg
    simp only [buildGroupsAux] at hg
    refine ih (k + 1) _ ?_ (fun p hp => hok p (List.mem_cons_of_mem px hp)) g hg
    intro g' hg'
    by_cases ha : px.assigned = none
    · rw [if_pos ha] at hg'
      cases hb : bestAvailable avail px with
      | none =>
        rw [hb] at hg'
        exact hgs0 g' hg'
      | some bp =>
        rw [hb] at hg'
        rcases addGroup_key_mem gs0 bp.hex (k, bp.distance) g' hg' with h' | h'
        · exact hgs0 g' h'
        · rw [h']
          exact (hok px (List.mem_cons_self px rest)).2 bp (bestAvailable_mem avail px bp hb)
    · rw [if_neg ha] at hg'
      exact hgs0 g' hg'

theorem assignAt_ok (palette : List PaletteEntry) (ps : List PixelPref) (i : Nat)
    (hx : String) (hok : ∀ px ∈ ps, PxOk palette px) (hall : pxAllowed palette hx) :
    ∀ px ∈ assignAt ps i hx, PxOk palette px := by
  intro px hpx
  unfold assignAt at hpx
  cases hg : ps.get? i with
  | none =>
    rw [hg] at hpx
    exact hok px hpx
  | some px0 =>
    rw [hg] at hpx
    rcases List.mem_or_eq_of_mem_set hpx with h | h
    · exact hok px h
    · subst h
      have hm : px0 ∈ ps := List.getElem?_mem (by rw [← List.get?_eq_getElem?]; exact hg)
      exact ⟨Or.inr ⟨hx, rfl, hall⟩, fun pr hpr => (hok px0 hm).2 pr hpr⟩

theorem assignIdxs_ok (palette : List PaletteEntry) (idxs : List Nat) (hx : String)
    (hall : pxAllowed palette hx) :
    ∀ ps, (∀ px ∈ ps, PxOk palette px) → ∀ px ∈ assignIdxs ps idxs hx, PxOk palette px := by
  induction idxs with
  | nil =>
    intro ps hok px hpx
    exact hok px hpx
  | cons i rest ih =>
    intro ps hok px hpx
    simp only [assignIdxs, List.foldl_cons] at hpx
    exact ih (assignAt ps i hx) (assignAt_ok palette ps i hx hok hall) px hpx

theorem applyGroup_ok (palette : List PaletteEntry) (ps : List PixelPref)
    (av : List (String × Qty)) (hx : String) (members : List (Nat × JsDist))
    (hok : ∀ px ∈ ps, PxOk palette px) (hall : pxAllowed palette hx) :
    ∀ px ∈ (applyGroup (ps, av) (hx, members)).1, PxOk palette px := by
  simp only [applyGroup]
  by_cases hc : jsLenLE members.length (alookup av hx) = true
  · rw [if_pos hc]
    exact assignIdxs_ok palette _ hx hall ps hok
  · rw [if_neg hc]
    exact assignIdxs_ok palette _ hx hall ps hok

theorem groupsFold_ok (palette : List PaletteEntry)
    (gs : List (String × List (Nat × JsDist))) :
    ∀ (ps : List PixelPref) (av : List (String × Qty)),
      (∀ g ∈ gs, pxAllowed palette g.1) →
      (∀ px ∈ ps, PxOk palette px) →
      ∀ px ∈ (gs.foldl applyGroup (ps, av)).1, PxOk palette px := by
  induction gs with
  | nil =>
    intro ps av _ hok px hpx
    exact hok px hpx
  | cons g rest ih =>
    intro ps av hkeys hok px hpx
    simp only [List.foldl_cons] at hpx
    have h1 : ∀ px ∈ (applyGroup (ps, av) g).1, PxOk palette px := by
      obtain ⟨hx, members⟩ := g
      exact applyGroup_ok palette ps av hx members hok (hkeys _ (List.mem_cons_self _ _))
    have heta : applyGroup (ps, av) g =
        ((applyGroup (ps, av) g).1, (applyGroup (ps, av) g).2) := rfl
    rw [heta] at hpx
    exact ih _ _ (fun g' hg' => hkeys g' (List.mem_cons_of_mem g hg')) h1 px hpx

theorem doRound_ok (palette : List PaletteEntry) (av : List (String × Qty))
    (ps : List PixelPref) (hok : ∀ px ∈ ps, PxOk palette px) :
    ∀ px ∈ (doRound av ps).1, PxOk palette px := by
  unfold doRound
  exact groupsFold_ok palette _ _ _
    (buildGroupsAux_keys_allowed palette av ps 0 [] (by simp) hok)
    (phase1Assign_ok av palette ps hok)

theorem rationRounds_ok (palette : List PaletteEntry) (fuel : Nat) :
    ∀ (av : List (String × Qty)) (ps : List PixelPref),
      (∀ px ∈ ps, PxOk palette px) →
      ∀ px ∈ rationRounds fuel av ps, PxOk palette px := by
  induction fuel with
  | zero =>
    intro av ps hok px hpx
    exact hok px hpx
  | succ n ih =>
    intro av ps hok px hpx
    simp only [rationRounds] at hpx
    by_cases hu : ps.any (fun px => px.assigned = none) = true
    · rw [if_pos hu] at hpx
      exact ih _ _ (doRound_ok palette av ps hok) px hpx
    · rw [if_neg hu] at hpx
      exact hok px hpx

theorem mkPixelPrefs_ok (pixelColors : Grid) (palette : List PaletteEntry)
    (rows cols : Nat) :
    ∀ px ∈ mkPixelPrefs pixelColors palette rows cols, PxOk palette px := by
  intro px hpx
  rw [mkPixelPrefs, List.mem_flatten] at hpx
  obtain ⟨l, hl, hpxl⟩ := hpx
  obtain ⟨r, _, hr⟩ := List.mem_map.mp hl
  subst hr
  obtain ⟨c, _, hc⟩ := List.mem_map.mp hpxl
  subst hc
  exact mkPixelPref_ok pixelColors palette r c

/-- C9: `distributeColorsEvenly` is total (its rationing loop is
structurally bounded by the 10-round cap), returns a grid of exactly the
input's dimensions, and gives every cell a defined value — the clear
sentinel or the hex of some palette entry — even when supplies are
exhausted or the round cap is hit. -/
theorem distributeColorsEvenlyTotalSafe (pixelColors : Grid)
    (palette : List PaletteEntry) (R C : Nat)
    (hR : pixelColors.length = R) (hrect : ∀ row ∈ pixelColors, row.length = C)
    (hR1 : 1 ≤ R) :
    (distributeColorsEvenly pixelColors palette).length = R ∧
      (∀ row ∈ distributeColorsEvenly pixelColors palette, row.length = C) ∧
      (∀ row ∈ distributeColorsEvenly pixelColors palette, ∀ cell ∈ row,
        cell = "clear" ∨ ∃ e ∈ palette, cell = e.hex) := by
  have hne : pixelColors ≠ [] := by
    intro h
    rw [h] at hR
    simp at hR
    omega
  have hhead : (pixelColors.head?.map List.length).getD 0 = C := headLenD _ C hne hrect
  have hfinal : ∀ px ∈ rationRounds 10 (buildAvail palette)
      (mkPixelPrefs pixelColors palette pixelColors.length
        ((pixelColors.head?.map List.length).getD 0)), PxOk palette px :=
    rationRounds_ok palette 10 _ _ (mkPixelPrefs_ok _ _ _ _)
  refine ⟨?_, ?_, ?_⟩
  · simp [distributeColorsEvenly, hR]
  · intro row hrow
    simp only [distributeColorsEvenly] at hrow
    obtain ⟨r, _, hr⟩ := List.mem_map.mp hrow
    subst hr
    simp [hhead]
  · intro row hrow cell hcell
    simp only [distributeColorsEvenly] at hrow
    obtain ⟨r, _, hr⟩ := List.mem_map.mp hrow
    subst hr
    obtain ⟨c, _, hc⟩ := List.mem_map.mp hcell
    subst hc
    cases hg : (rationRounds 10 (buildAvail palette)
        (mkPixelPrefs pixelColors palette pixelColors.length
          ((pixelColors.head?.map List.length).getD 0))).get?
        (r * ((pixelColors.head?.map List.length).getD 0) + c) with
    | none =>
      exact Or.inl rfl
    | some px =>
      show jsOrStr px.assigned (jsOrStr ((px.preferences.head?).map Pref.hex) "clear") =
          "clear" ∨
        ∃ e ∈ palette,
          jsOrStr px.assigned (jsOrStr ((px.preferences.head?).map Pref.hex) "clear") = e.hex
      have hpxok : PxOk palette px :=
        hfinal px (List.getElem?_mem (by rw [← List.get?_eq_getElem?]; exact hg))
      rcases jsOrStr_cases px.assigned
          (jsOrStr ((px.preferences.head?).map Pref.hex) "clear") with h | ⟨s, hs, h⟩
      · rw [h]
        rcases jsOrStr_cases ((px.preferences.head?).map Pref.hex) "clear" with
          h2 | ⟨s2, hs2, h2⟩
        · rw [h2]
          exact Or.inl rfl
        · rw [h2]
          obtain ⟨pr, hpr, hhex⟩ := Option.map_eq_some'.mp hs2
          subst hhex
          exact hpxok.2 pr (List.mem_of_mem_head? (Option.mem_def.mpr hpr))
      · rw [h]
        rcases hpxok.1 with hnone | ⟨hx, hhx, hall⟩
        · rw [hnone] at hs
          exact absurd hs (by simp)
        · rw [hhx] at hs
          injection hs with hs'
          subst hs'
          exact hall

theorem distributeColorsEvenlyTotalSafe_witness :
    (distributeColorsEvenly [["#ff0000"]]
        [{ hex := "#0000ff", quantity := .fin 1, name := none }]).length = 1 :=
  (distributeColorsEvenlyTotalSafe [["#ff0000"]]
      [{ hex := "#0000ff", quantity := .fin 1, name := none }] 1 1 rfl
      (by decide) (by decide)).1

/-- Counterexample to C3: with palette color X = `#000000` at quantity 1 and
no other candidate colors, pixels `#000100` (distance 2, squared scaled
2048) and `#000400` (distance 8, squared scaled 32768) produce: the closer
pixel wins X in the rationing round, but the distance-8 pixel has a
one-entry preference list — there is no next-best preference — and it is
assigned X anyway by the oversubscription fallback. -/
theorem fairnessNoNextBest_counterexample :
    colorDistance "#000100" "#000000" = some 2048 ∧
      colorDistance "#000400" "#000000" = some 32768 ∧
      (getColorPreferences "#000400"
        [{ hex := "clear", quantity := .inf, name := some "Clear" },
         { hex := "#000000", quantity := .fin 1, name := none }]).length = 1 ∧
      distributeColorsEvenly [["#000100", "#000400"]]
        [{ hex := "clear", quantity := .inf, name := some "Clear" },
         { hex := "#000000", quantity := .fin 1, name := none }] =
        [["#000000", "#000000"]] := by
  refine ⟨by decide, by decide, by decide, by decide⟩

/-- C3 (amended): for a raster of exactly two opaque pixels at perceptual
distances 2 and 8 from a palette color X with quantity 1 and no other
candidate colors, the distance-2 pixel is assigned X in the rationing
round; the distance-8 pixel, whose every preference is then exhausted, is
assigned X as well by the oversubscription fallback (there is no next-best
preference to fall back to). Distances are stated as the embedded scaled
squares: 2048 = 512·2², 32768 = 512·8². -/
theorem scarceColorGoesToCloserPixel (X p1 p2 : String)
    (hd1 : colorDistance p1 X = some 2048)
    (hd2 : colorDistance p2 X = some 32768)
    (hXc : X ≠ "clear") (hXd : X ≠ "disney") (hXe : X ≠ "") :
    distributeColorsEvenly [[p1, p2]]
      [{ hex := "clear", quantity := .inf, name := some "Clear" },
       { hex := X, quantity := .fin 1, name := none }] = [[X, X]] := by
  have hclear : hexToRgb "clear" = none := by decide
  have htrans : hexToRgb "transparent" = none := by decide
  have hp1c : ¬ (p1 = "clear" ∨ p1 = "transparent") := by
    rintro (h | h) <;> subst h <;>
      simp [colorDistance, hclear, htrans] at hd1
  have hp2c : ¬ (p2 = "clear" ∨ p2 = "transparent") := by
    rintro (h | h) <;> subst h <;>
      simp [colorDistance, hclear, htrans] at hd2
  have hprefs1 : getColorPreferences p1
      [{ hex := "clear", quantity := .inf, name := some "Clear" },
       { hex := X, quantity := .fin 1, name := none }] =
      [{ hex := X, distance := some 2048 }] := by
    simp [getColorPreferences, sortStable, insertStable, hXc, hXd, hd1]
  have hprefs2 : getColorPreferences p2
      [{ hex := "clear", quantity := .inf, name := some "Clear" },
       { hex := X, quantity := .fin 1, name := none }] =
      [{ hex := X, distance := some 32768 }] := by
    simp [getColorPreferences, sortStable, insertStable, hXc, hXd, hd2]
  have havail : buildAvail
      [{ hex := "clear", quantity := .inf, name := some "Clear" },
       { hex := X, quantity := .fin 1, name := none }] = [(X, Qty.fin 1)] := by
    simp [buildAvail, aset, hXc, hXd]
  have hmk : mkPixelPrefs [[p1, p2]]
      [{ hex := "clear", quantity := .inf, name := some "Clear" },
       { hex := X, quantity := .fin 1, name := none }] 1 2 =
      [⟨0, 0, [{ hex := X, distance := some 2048 }], none⟩,
       ⟨0, 1, [{ hex := X, distance := some 32768 }], none⟩] := by
    simp [mkPixelPrefs, mkPixelPref, List.range_succ, hp1c, hp2c, hprefs1, hprefs2]
  have hround1 : doRound [(X, Qty.fin 1)]
      [⟨0, 0, [{ hex := X, distance := some 2048 }], none⟩,
       ⟨0, 1, [{ hex := X, distance := some 32768 }], none⟩] =
      ([⟨0, 0, [{ hex := X, distance := some 2048 }], some X⟩,
        ⟨0, 1, [{ hex := X, distance := some 32768 }], none⟩], [(X, Qty.fin 0)]) := by
    simp [doRound, buildGroupsAux, bestAvailable, alookup, qtyPos, addGroup,
      phase1Assign, applyGroup, jsLenLE, sortStable, insertStable, distLT,
      assignIdxs, assignAt, aset, qtySub]
  have hround2 : doRound [(X, Qty.fin 0)]
      [⟨0, 0, [{ hex := X, distance := some 2048 }], some X⟩,
       ⟨0, 1, [{ hex := X, distance := some 32768 }], none⟩] =
      ([⟨0, 0, [{ hex := X, distance := some 2048 }], some X⟩,
        ⟨0, 1, [{ hex := X, distance := some 32768 }], some X⟩], [(X, Qty.fin 0)]) := by
    simp [doRound, buildGroupsAux, bestAvailable, alookup, qtyPos, addGroup,
      phase1Assign, applyGroup, jsLenLE, jsOrStr, hXe]
  have hstep : ∀ (fuel : Nat) (av : List (String × Qty)) (ps : List PixelPref),
      rationRounds (fuel + 1) av ps =
        if ps.any (fun px => px.assigned = none) = true then
          rationRounds fuel (doRound av ps).2 (doRound av ps).1
        else ps := fun _ _ _ => rfl
  have hrat : rationRounds 10 [(X, Qty.fin 1)]
      [⟨0, 0, [{ hex := X, distance := some 2048 }], none⟩,
       ⟨0, 1, [{ hex := X, distance := some 32768 }], none⟩] =
      [⟨0, 0, [{ hex := X, distance := some 2048 }], some X⟩,
       ⟨0, 1, [{ hex := X, distance := some 32768 }], some X⟩] := by
    rw [show (10 : Nat) = 9 + 1 from rfl, hstep]
    rw [if_pos (by simp)]
    simp only [hround1]
    rw [show (9 : Nat) = 8 + 1 from rfl, hstep]
    rw [if_pos (by simp)]
    simp only [hround2]
    rw [show (8 : Nat) = 7 + 1 from rfl, hstep]
    rw [if_neg (by simp)]
  show (List.range 1).map (fun r => (List.range 2).map (fun c =>
      match (rationRounds 10
          (buildAvail [{ hex := "clear", quantity := .inf, name := some "Clear" },
            { hex := X, quantity := .fin 1, name := none }])
          (mkPixelPrefs [[p1, p2]]
            [{ hex := "clear", quantity := .inf, name := some "Clear" },
              { hex := X, quantity := .fin 1, name := none }] 1 2)).get? (r * 2 + c) with
      | some px =>
        jsOrStr px.assigned (jsOrStr ((px.preferences.head?).map Pref.hex) "clear")
      | none => "clear")) = [[X, X]]
  rw [havail, hmk, hrat]
  simp [List.range_succ, jsOrStr, hXe]

theorem scarceColorGoesToCloserPixel_witness :
    distributeColorsEvenly [["#000100", "#000400"]]
      [{ hex := "clear", quantity := .inf, name := some "Clear" },
       { hex := "#000000", quantity := .fin 1, name := none }] =
      [["#000000", "#000000"]] :=
  scarceColorGoesToCloserPixel "#000000" "#000100" "#000400" (by decide) (by decide)
    (by decide) (by decide) (by decide)

theorem distLT_asymm_trans (a b c : JsDist) (hab : distLT a b = false)
    (hbc : distLT b c = false) : distLT a c = false := by
  cases a <;> cases b <;> cases c <;> simp [distLT] at * <;> omega

theorem distLT_lt_trans (a b c : JsDist) (hab : distLT a b = true)
    (hbc : distLT b c = true) : distLT a c = true := by
  cases a <;> cases b <;> cases c <;> simp [distLT] at * <;> omega

theorem sortStable_head (lt : α → α → Bool) (l : List α) :
    (sortStable lt l).head? = findMinRec lt l := by
  induction l with
  | nil => rfl
  | cons x xs ih =>
    simp only [sortStable, List.foldr_cons] at ih ⊢
    simp only [findMinRec, ← ih]
    cases hs : (List.foldr (insertStable lt) [] xs).head? with
    | none =>
      have : List.foldr (insertStable lt) [] xs = [] := by
        cases h : List.foldr (insertStable lt) [] xs with
        | nil => rfl
        | cons a as => rw [h] at hs; simp at hs
      rw [this]
      rfl
    | some m =>
      obtain ⟨as, hcons⟩ : ∃ as, List.foldr (insertStable lt) [] xs = m :: as := by
        cases h : List.foldr (insertStable lt) [] xs with
        | nil => rw [h] at hs; simp at hs
        | cons a bs =>
          rw [h] at hs
          simp only [List.head?_cons, Option.some.injEq] at hs
          exact ⟨bs, by rw [hs]⟩
      rw [hcons]
      simp only [insertStable]
      by_cases hlt : lt m x = true
      · rw [if_pos hlt, if_pos hlt]
        rfl
      · rw [if_neg hlt, if_neg hlt]
        rfl

/-- The running strict-minimum fold inside `findClosestPaletteColor`,
specified against `findMinRec`. -/
theorem foldClosest_spec (l : List Pref) :
    ∀ (acc : Option String × JsDist),
      l.foldl (fun acc pr =>
        if distLT pr.distance acc.2 then (some pr.hex, pr.distance) else acc) acc =
      (match findMinRec (fun a b => distLT a.distance b.distance) l with
        | none => acc
        | some m => if distLT m.distance acc.2 then (some m.hex, m.distance) else acc) := by
  induction l with
  | nil => intro acc; rfl
  | cons x xs ih =>
    intro acc
    simp only [List.foldl_cons]
    rw [ih]
    simp only [findMinRec]
    cases hm : findMinRec (fun a b => distLT a.distance b.distance) xs with
    | none =>
      by_cases hx : distLT x.distance acc.2 = true
      · simp [hx]
      · simp [hx]
    | some m =>
      by_cases hmx : distLT m.distance x.distance = true
      · by_cases hx : distLT x.distance acc.2 = true
        · have hma : distLT m.distance acc.2 = true := distLT_lt_trans _ _ _ hmx hx
          simp [hx, hmx, hma]
        · simp [hx, hmx]
      · by_cases hx : distLT x.distance acc.2 = true
        · simp [hx, hmx]
        · have hma : distLT m.distance acc.2 = false :=
            distLT_asymm_trans _ _ _ (by simpa using hmx) (by simpa using hx)
          simp [hx, hmx, hma]

theorem findMinRec_mem (lt : α → α → Bool) (l : List α) (m : α)
    (h : findMinRec lt l = some m) : m ∈ l := by
  induction l with
  | nil => simp [findMinRec] at h
  | cons x xs ih =>
    simp only [findMinRec] at h
    cases hr : findMinRec lt xs with
    | none =>
      rw [hr] at h
      injection h with h
      exact h ▸ List.mem_cons_self x xs
    | some m' =>
      rw [hr] at h
      have h' : (if lt m' x = true then some m' else some x) = some m := h
      by_cases hlt : lt m' x = true
      · rw [if_pos hlt] at h'
        injection h' with h'
        exact List.mem_cons_of_mem x (h' ▸ ih (h' ▸ hr))
      · rw [if_neg hlt] at h'
        injection h' with h'
        exact h' ▸ List.mem_cons_self x xs

theorem getColorPreferences_eq_sort (pixelHex : String) (palette : List PaletteEntry) :
    getColorPreferences pixelHex palette =
      sortStable (fun a b => distLT a.distance b.distance)
        (rawPreferences pixelHex palette) := rfl

theorem findClosest_raw (pixelHex : String) (palette : List PaletteEntry) :
    findClosestPaletteColor pixelHex palette =
      (match findMinRec (fun a b => distLT a.distance b.distance)
          (rawPreferences pixelHex palette) with
        | none => "clear"
        | some m => if distLT m.distance none then m.hex else "clear") := by
  have hfold : ∀ (pal : List PaletteEntry) (acc : Option String × JsDist),
      pal.foldl (fun (acc : Option String × JsDist) p =>
        if p.hex = "clear" ∨ p.hex = "disney" then acc
        else
          let d := colorDistance pixelHex p.hex
          if distLT d acc.2 then (some p.hex, d) else acc) acc =
      (rawPreferences pixelHex pal).foldl (fun acc pr =>
        if distLT pr.distance acc.2 then (some pr.hex, pr.distance) else acc) acc := by
    intro pal
    induction pal with
    | nil => intro acc; rfl
    | cons e rest ih =>
      intro acc
      by_cases hs : e.hex = "clear" ∨ e.hex = "disney"
      · simp only [List.foldl_cons, if_pos hs]
        rw [ih]
        have hraw : rawPreferences pixelHex (e :: rest) = rawPreferences pixelHex rest := by
          simp only [rawPreferences, List.filter_cons]
          rcases hs with h | h <;> simp [h]
        rw [hraw]
      · simp only [List.foldl_cons, if_neg hs]
        rw [ih]
        have hraw : rawPreferences pixelHex (e :: rest) =
            { hex := e.hex, distance := colorDistance pixelHex e.hex } ::
              rawPreferences pixelHex rest := by
          push_neg at hs
          simp only [rawPreferences, List.filter_cons]
          simp [hs.1, hs.2]
        rw [hraw, List.foldl_cons]
  unfold findClosestPaletteColor
  rw [hfold, foldClosest_spec]
  cases hm : findMinRec (fun a b => distLT a.distance b.distance)
      (rawPreferences pixelHex palette) with
  | none => rfl
  | some m =>
    show (if distLT m.distance none = true then (some m.hex, m.distance)
        else ((none, none) : Option String × JsDist)).1.getD "clear" =
      (if distLT m.distance none = true then m.hex else "clear")
    by_cases hd : distLT m.distance none = true
    · rw [if_pos hd, if_pos hd]
      rfl
    · rw [if_neg hd, if_neg hd]
      rfl

theorem findClosest_eq_head (pixelHex : String) (palette : List PaletteEntry)
    (hfin : ∀ pr ∈ rawPreferences pixelHex palette, pr.distance ≠ none) :
    findClosestPaletteColor pixelHex palette =
      (match (getColorPreferences pixelHex palette).head? with
        | some pr => pr.hex
        | none => "clear") := by
  rw [findClosest_raw, getColorPreferences_eq_sort, sortStable_head]
  cases hm : findMinRec (fun a b => distLT a.distance b.distance)
      (rawPreferences pixelHex palette) with
  | none => rfl
  | some m =>
    have hmem := findMinRec_mem _ _ _ hm
    have hfin' := hfin m hmem
    have hd : distLT m.distance none = true := by
      cases hmd : m.distance with
      | none => exact absurd hmd hfin'
      | some d => rfl
    show (if distLT m.distance none = true then m.hex else "clear") = m.hex
    rw [if_pos hd]

theorem alookup_cons (p : String × α) (rest : List (String × α)) (k' : String) :
    alookup (p :: rest) k' = if p.1 = k' then some p.2 else alookup rest k' := by
  simp only [alookup, List.find?]
  by_cases h : p.1 = k'
  · simp [h]
  · simp [h]

theorem alookup_aset (m : List (String × α)) (k k' : String) (v : α) :
    alookup (aset m k v) k' = if k' = k then some v else alookup m k' := by
  induction m with
  | nil =>
    show alookup [(k, v)] k' = if k' = k then some v else alookup [] k'
    rw [alookup_cons]
    by_cases h : k' = k
    · rw [if_pos (show (k, v).1 = k' from h.symm), if_pos h]
    · rw [if_neg (fun hh => h (show k' = k from hh.symm)), if_neg h]
  | cons p rest ih =>
    by_cases hk : p.1 = k
    · rw [show aset (p :: rest) k v = (k, v) :: rest from by simp [aset, hk]]
      rw [alookup_cons]
      by_cases h : k' = k
      · rw [if_pos (show (k, v).1 = k' from h.symm), if_pos h]
      · rw [if_neg (fun hh => h (show k' = k from hh.symm)), if_neg h, alookup_cons,
          if_neg (fun hh => h (hk.symm.trans hh).symm)]
    · rw [show aset (p :: rest) k v = p :: aset rest k v from by simp [aset, hk]]
      rw [alookup_cons]
      by_cases hpk : p.1 = k'
      · rw [if_pos hpk, if_neg (fun hh => hk (hpk.trans hh)), alookup_cons, if_pos hpk]
      · rw [if_neg hpk, ih]
        by_cases h : k' = k
        · rw [if_pos h, if_pos h]
        · rw [if_neg h, if_neg h, alookup_cons, if_neg hpk]

theorem buildAvail_fold_lookup :
    ∀ (palette : List PaletteEntry),
      (∀ e ∈ palette, ¬ (e.hex = "clear" ∨ e.hex = "disney") → e.quantity = Qty.inf) →
      ∀ (m : List (String × Qty)) (h : String),
        alookup (palette.foldl (fun m p =>
          if ¬ (p.hex = "clear" ∨ p.hex = "disney") then aset m p.hex p.quantity else m) m) h =
        if ∃ e ∈ palette, ¬ (e.hex = "clear" ∨ e.hex = "disney") ∧ e.hex = h then
          some Qty.inf
        else alookup m h := by
  intro palette
  induction palette with
  | nil =>
    intro _ m h
    simp
  | cons e rest ih =>
    intro hq m h
    have hqr : ∀ e' ∈ rest, ¬ (e'.hex = "clear" ∨ e'.hex = "disney") →
        e'.quantity = Qty.inf :=
      fun e' he' => hq e' (List.mem_cons_of_mem e he')
    simp only [List.foldl_cons]
    by_cases hsp : e.hex = "clear" ∨ e.hex = "disney"
    · rw [if_neg (not_not_intro hsp), ih hqr]
      by_cases hc : ∃ e' ∈ rest, ¬ (e'.hex = "clear" ∨ e'.hex = "disney") ∧ e'.hex = h
      · rw [if_pos hc]
        obtain ⟨e', he', hP⟩ := hc
        rw [if_pos ⟨e', List.mem_cons_of_mem e he', hP⟩]
      · rw [if_neg hc]
        rw [if_neg ?hcons]
        case hcons =>
          rintro ⟨e', he', hP⟩
          rcases List.mem_cons.mp he' with h' | h'
          · exact hP.1 (h' ▸ hsp)
          · exact hc ⟨e', h', hP⟩
    · rw [if_pos hsp, ih hqr]
      have hinf : e.quantity = Qty.inf := hq e (List.mem_cons_self e rest) hsp
      by_cases hc : ∃ e' ∈ rest, ¬ (e'.hex = "clear" ∨ e'.hex = "disney") ∧ e'.hex = h
      · rw [if_pos hc]
        obtain ⟨e', he', hP⟩ := hc
        rw [if_pos ⟨e', List.mem_cons_of_mem e he', hP⟩]
      · rw [if_neg hc, alookup_aset]
        by_cases hh : h = e.hex
        · rw [if_pos hh, hinf,
            if_pos ⟨e, List.mem_cons_self e rest, hsp, hh.symm⟩]
        · rw [if_neg hh]
          rw [if_neg ?hcons2]
          case hcons2 =>
            rintro ⟨e', he', hP⟩
            rcases List.mem_cons.mp he' with h' | h'
            · exact hh (h' ▸ hP.2).symm
            · exact hc ⟨e', h', hP⟩

theorem buildAvail_inf (palette : List PaletteEntry)
    (hq : ∀ e ∈ palette, ¬ (e.hex = "clear" ∨ e.hex = "disney") → e.quantity = Qty.inf)
    (h : String)
    (hmem : ∃ e ∈ palette, ¬ (e.hex = "clear" ∨ e.hex = "disney") ∧ e.hex = h) :
    alookup (buildAvail palette) h = some Qty.inf := by
  unfold buildAvail
  rw [buildAvail_fold_lookup palette hq [] h, if_pos hmem]

theorem find?_of_all_true (p : α → Bool) (l : List α) (h : ∀ x ∈ l, p x = true) :
    l.find? p = l.head? := by
  cases l with
  | nil => rfl
  | cons x xs =>
    have hx := h x (List.mem_cons_self x xs)
    simp [List.find?, hx]

theorem bestAvailable_inf (avail : List (String × Qty)) (px : PixelPref)
    (hall : ∀ pr ∈ px.preferences, alookup avail pr.hex = some Qty.inf) :
    bestAvailable avail px = px.preferences.head? := by
  unfold bestAvailable
  refine find?_of_all_true _ _ (fun pr hpr => ?_)
  rw [hall pr hpr]
  rfl

theorem inGroups_cons (g0 : String × List (Nat × JsDist))
    (rest : List (String × List (Nat × JsDist))) (j : Nat) (h' : String) :
    inGroups (g0 :: rest) j h' ↔
      (g0.1 = h' ∧ j ∈ g0.2.map Prod.fst) ∨ inGroups rest j h' := by
  unfold inGroups
  constructor
  · rintro ⟨g, hg, hk, hj⟩
    rcases List.mem_cons.mp hg with h | h
    · exact Or.inl ⟨h ▸ hk, h ▸ hj⟩
    · exact Or.inr ⟨g, h, hk, hj⟩
  · rintro (⟨hk, hj⟩ | ⟨g, hg, hk, hj⟩)
    · exact ⟨g0, List.mem_cons_self g0 rest, hk, hj⟩
    · exact ⟨g, List.mem_cons_of_mem g0 hg, hk, hj⟩

theorem inGroups_addGroup (gs : List (String × List (Nat × JsDist))) (h : String)
    (m : Nat × JsDist) (j : Nat) (h' : String) :
    inGroups (addGroup gs h m) j h' ↔ inGroups gs j h' ∨ (j = m.1 ∧ h' = h) := by
  induction gs with
  | nil =>
    show inGroups [(h, [m])] j h' ↔ inGroups [] j h' ∨ (j = m.1 ∧ h' = h)
    rw [inGroups_cons]
    unfold inGroups
    simp [eq_comm]
    tauto
  | cons g0 rest ih =>
    simp only [addGroup]
    by_cases hk : g0.1 = h
    · rw [if_pos hk, inGroups_cons, inGroups_cons]
      simp only [List.map_append, List.mem_append, List.mem_singleton, List.map_cons,
        List.map_nil]
      constructor
      · rintro (⟨hh, hj | hj⟩ | hrest)
        · exact Or.inl (Or.inl ⟨hk ▸ hh, hj⟩)
        · exact Or.inr ⟨hj, hh.symm⟩
        · exact Or.inl (Or.inr hrest)
      · rintro ((⟨hh, hj⟩ | hrest) | ⟨hj, hh⟩)
        · exact Or.inl ⟨hk.symm ▸ hh, Or.inl hj⟩
        · exact Or.inr hrest
        · exact Or.inl ⟨hh.symm, Or.inr (by simp [hj])⟩
    · rw [if_neg hk, inGroups_cons, inGroups_cons, ih]
      tauto

theorem buildGroups_spec (avail : List (String × Qty)) :
    ∀ (pixels : List PixelPref) (k : Nat) (gs0 : List (String × List (Nat × JsDist)))
      (j : Nat) (h : String),
      inGroups (buildGroupsAux avail k pixels gs0) j h ↔
        inGroups gs0 j h ∨
          ∃ t px, pixels.get? t = some px ∧ j = k + t ∧ px.assigned = none ∧
            ∃ bp, bestAvailable avail px = some bp ∧ bp.hex = h := by
  intro pixels
  induction pixels with
  | nil =>
    intro k gs0 j h
    show inGroups gs0 j h ↔ _
    constructor
    · exact Or.inl
    · rintro (hg | ⟨t, px, hget, _⟩)
      · exact hg
      · exact absurd hget (by simp [List.get?_eq_getElem?])
  | cons px0 rest ih =>
    intro k gs0 j h
    simp only [buildGroupsAux]
    by_cases ha : px0.assigned = none
    · rw [if_pos ha]
      cases hb : bestAvailable avail px0 with
      | none =>
        rw [ih]
        constructor
        · rintro (hg | ⟨t, px, hget, hj, hun, bp, hbp, hbh⟩)
          · exact Or.inl hg
          · exact Or.inr ⟨t + 1, px, hget, by omega, hun, bp, hbp, hbh⟩
        · rintro (hg | ⟨t, px, hget, hj, hun, bp, hbp, hbh⟩)
          · exact Or.inl hg
          · cases t with
            | zero =>
              have hpx : px = px0 :=
                (Option.some.inj (show some px0 = some px from hget)).symm
              subst hpx
              rw [hb] at hbp
              exact absurd hbp (by simp)
            | succ t' =>
              exact Or.inr ⟨t', px, hget, by omega, hun, bp, hbp, hbh⟩
      | some bp0 =>
        rw [ih, inGroups_addGroup]
        constructor
        · rintro ((hg | ⟨hj, hh⟩) | ⟨t, px, hget, hj, hun, bp, hbp, hbh⟩)
          · exact Or.inl hg
          · exact Or.inr ⟨0, px0, rfl, by simpa using hj, ha, bp0, hb, hh.symm⟩
          · exact Or.inr ⟨t + 1, px, hget, by omega, hun, bp, hbp, hbh⟩
        · rintro (hg | ⟨t, px, hget, hj, hun, bp, hbp, hbh⟩)
          · exact Or.inl (Or.inl hg)
          · cases t with
            | zero =>
              have hpx : px = px0 :=
                (Option.some.inj (show some px0 = some px from hget)).symm
              subst hpx
              rw [hb] at hbp
              have hbp' : bp0 = bp := Option.some.inj hbp
              subst hbp'
              exact Or.inl (Or.inr ⟨by omega, hbh.symm⟩)
            | succ t' =>
              exact Or.inr ⟨t', px, hget, by omega, hun, bp, hbp, hbh⟩
    · rw [if_neg ha, ih]
      constructor
      · rintro (hg | ⟨t, px, hget, hj, hun, bp, hbp, hbh⟩)
        · exact Or.inl hg
        · exact Or.inr ⟨t + 1, px, hget, by omega, hun, bp, hbp, hbh⟩
      · rintro (hg | ⟨t, px, hget, hj, hun, bp, hbp, hbh⟩)
        · exact Or.inl hg
        · cases t with
          | zero =>
            have hpx : px = px0 :=
              (Option.some.inj (show some px0 = some px from hget)).symm
            subst hpx
            exact absurd hun ha
          | succ t' =>
            exact Or.inr ⟨t', px, hget, by omega, hun, bp, hbp, hbh⟩

theorem addGroup_keys_pairwise (gs : List (String × List (Nat × JsDist))) (h : String)
    (m : Nat × JsDist) (hp : gs.Pairwise (fun a b => a.1 ≠ b.1)) :
    (addGroup gs h m).Pairwise (fun a b => a.1 ≠ b.1) := by
  induction gs with
  | nil => simp [addGroup]
  | cons g0 rest ih =>
    rw [List.pairwise_cons] at hp
    simp only [addGroup]
    by_cases hk : g0.1 = h
    · rw [if_pos hk]
      rw [List.pairwise_cons]
      exact ⟨fun b hb => hk ▸ hp.1 b hb, hp.2⟩
    · rw [if_neg hk]
      rw [List.pairwise_cons]
      refine ⟨fun b hb => ?_, ih hp.2⟩
      rcases addGroup_key_mem rest h m b hb with h' | h'
      · exact hp.1 b h'
      · rw [h']
        exact hk
  
theorem buildGroups_keys_pairwise (avail : List (String × Qty)) :
    ∀ (pixels : List PixelPref) (k : Nat) (gs0 : List (String × List (Nat × JsDist))),
      gs0.Pairwise (fun a b => a.1 ≠ b.1) →
      (buildGroupsAux avail k pixels gs0).Pairwise (fun a b => a.1 ≠ b.1) := by
  intro pixels
  induction pixels with
  | nil => intro k gs0 hp; exact hp
  | cons px0 rest ih =>
    intro k gs0 hp
    simp only [buildGroupsAux]
    by_cases ha : px0.assigned = none
    · rw [if_pos ha]
      cases hb : bestAvailable avail px0 with
      | none => exact ih (k + 1) gs0 hp
      | some bp => exact ih (k + 1) _ (addGroup_keys_pairwise gs0 bp.hex _ hp)
    · rw [if_neg ha]
      exact ih (k + 1) gs0 hp

theorem assignAt_get? (ps : List PixelPref) (i : Nat) (hx : String) (j : Nat) :
    (assignAt ps i hx).get? j =
      if i = j then (ps.get? j).map (fun px => { px with assigned := some hx })
      else ps.get? j := by
  unfold assignAt
  cases hg : ps.get? i with
  | none =>
    by_cases hij : i = j
    · subst hij
      rw [if_pos rfl, hg]
      rfl
    · rw [if_neg hij]
  | some px0 =>
    have hg' : ps[i]? = some px0 := by rw [← List.get?_eq_getElem?]; exact hg
    have hlen : i < ps.length := by
      rcases List.getElem?_eq_some.mp hg' with ⟨hlt, _⟩
      exact hlt
    by_cases hij : i = j
    · subst hij
      rw [if_pos rfl, List.get?_eq_getElem?, List.getElem?_set, if_pos rfl, if_pos hlen]
      rw [List.get?_eq_getElem?, hg']
      rfl
    · rw [if_neg hij, List.get?_eq_getElem?, List.getElem?_set, if_neg hij,
        ← List.get?_eq_getElem?]

theorem assignIdxs_get? (hx : String) : ∀ (idxs : List Nat) (ps : List PixelPref) (j : Nat),
    (assignIdxs ps idxs hx).get? j =
      if j ∈ idxs then (ps.get? j).map (fun px => { px with assigned := some hx })
      else ps.get? j := by
  intro idxs
  induction idxs with
  | nil =>
    intro ps j
    simp [assignIdxs]
  | cons i rest ih =>
    intro ps j
    simp only [assignIdxs, List.foldl_cons] at ih ⊢
    rw [ih (assignAt ps i hx) j]
    by_cases hj : j ∈ rest
    · rw [if_pos hj, if_pos (List.mem_cons_of_mem i hj)]
      rw [assignAt_get?]
      by_cases hij : i = j
      · rw [if_pos hij]
        cases ps.get? j <;> rfl
      · rw [if_neg hij]
    · rw [if_neg hj, assignAt_get?]
      by_cases hij : i = j
      · rw [if_pos hij, if_pos (hij ▸ List.mem_cons_self i rest)]
      · rw [if_neg hij, if_neg ?hnc]
        case hnc =>
          intro hmem
          rcases List.mem_cons.mp hmem with he | hm
          · exact hij he.symm
          · exact hj hm

theorem groupsFold_get?_inf :
    ∀ (gs : List (String × List (Nat × JsDist))) (ps : List PixelPref)
      (av : List (String × Qty)),
      (∀ g ∈ gs, alookup av g.1 = some Qty.inf) →
      gs.Pairwise (fun g1 g2 => ∀ j, j ∈ g1.2.map Prod.fst → ¬ j ∈ g2.2.map Prod.fst) →
      ∀ j,
        ((gs.foldl applyGroup (ps, av)).1).get? j =
          (match gs.find? (fun g => decide (j ∈ g.2.map Prod.fst)) with
            | some g => (ps.get? j).map (fun px => { px with assigned := some g.1 })
            | none => ps.get? j) := by
  intro gs
  induction gs with
  | nil =>
    intro ps av _ _ j
    rfl
  | cons g rest ih =>
    intro ps av hin hp j
    obtain ⟨hx, mem⟩ := g
    rw [List.pairwise_cons] at hp
    have hinfg : alookup av hx = some Qty.inf := hin (hx, mem) (List.mem_cons_self _ _)
    have happ : applyGroup (ps, av) (hx, mem) =
        (assignIdxs ps (mem.map Prod.fst) hx, aset av hx Qty.inf) := by
      simp only [applyGroup, hinfg]
      norm_num [jsLenLE, qtySub]
    rw [List.foldl_cons, happ]
    have hinf' : ∀ g' ∈ rest, alookup (aset av hx Qty.inf) g'.1 = some Qty.inf := by
      intro g' hg'
      rw [alookup_aset]
      by_cases hk : g'.1 = hx
      · rw [if_pos hk]
      · rw [if_neg hk]
        exact hin g' (List.mem_cons_of_mem _ hg')
    rw [ih _ _ hinf' hp.2 j]
    rw [assignIdxs_get? hx (mem.map Prod.fst) ps j]
    by_cases hjm : j ∈ mem.map Prod.fst
    · have hnone : rest.find? (fun g => decide (j ∈ g.2.map Prod.fst)) = none := by
        rw [List.find?_eq_none]
        intro g' hg'
        simp only [decide_eq_true_eq]
        exact hp.1 g' hg' j hjm
      rw [hnone]
      have hfind : (((hx, mem) :: rest).find?
          (fun g => decide (j ∈ g.2.map Prod.fst))) = some (hx, mem) := by
        simp [List.find?, hjm]
      rw [hfind, if_pos hjm]
    · have hfind : (((hx, mem) :: rest).find?
          (fun g => decide (j ∈ g.2.map Prod.fst))) =
          rest.find? (fun g => decide (j ∈ g.2.map Prod.fst)) := by
        simp [List.find?, hjm]
      rw [hfind, if_neg hjm]

theorem addGroup_nonempty (gs : List (String × List (Nat × JsDist))) (h : String)
    (m : Nat × JsDist) (hall : ∀ g ∈ gs, g.2 ≠ []) :
    ∀ g ∈ addGroup gs h m, g.2 ≠ [] := by
  induction gs with
  | nil =>
    intro g hg
    simp only [addGroup, List.mem_singleton] at hg
    subst hg
    simp
  | cons g0 rest ih =>
    intro g hg
    simp only [addGroup] at hg
    by_cases hk : g0.1 = h
    · rw [if_pos hk] at hg
      rcases List.mem_cons.mp hg with h' | h'
      · subst h'
        simp
      · exact hall g (List.mem_cons_of_mem g0 h')
    · rw [if_neg hk] at hg
      rcases List.mem_cons.mp hg with h' | h'
      · exact h' ▸ hall g0 (List.mem_cons_self g0 rest)
      · exact ih (fun g' hg' => hall g' (List.mem_cons_of_mem g0 hg')) g h'

theorem buildGroups_nonempty (avail : List (String × Qty)) :
    ∀ (pixels : List PixelPref) (k : Nat) (gs0 : List (String × List (Nat × JsDist))),
      (∀ g ∈ gs0, g.2 ≠ []) →
      ∀ g ∈ buildGroupsAux avail k pixels gs0, g.2 ≠ [] := by
  intro pixels
  induction pixels with
  | nil => intro k gs0 h0; exact h0
  | cons px0 rest ih =>
    intro k gs0 h0
    simp only [buildGroupsAux]
    by_cases ha : px0.assigned = none
    · rw [if_pos ha]
      cases hb : bestAvailable avail px0 with
      | none => exact ih (k + 1) gs0 h0
      | some bp => exact ih (k + 1) _ (addGroup_nonempty gs0 bp.hex _ h0)
    · rw [if_neg ha]
      exact ih (k + 1) gs0 h0

theorem doRound_get?_inf (av : List (String × Qty)) (pixels : List PixelPref)
    (hall : ∀ px ∈ pixels, px.assigned = none →
      ∀ pr ∈ px.preferences, alookup av pr.hex = some Qty.inf) :
    ∀ j, ((doRound av pixels).1).get? j = (pixels.get? j).map assignBest := by
  intro j
  have hspec := buildGroups_spec av pixels 0 []
  have hnil : ∀ (j' : Nat) (h : String), ¬ inGroups [] j' h := by
    rintro j' h ⟨g, hg, _⟩
    exact absurd hg (List.not_mem_nil g)
  have hdet : ∀ g ∈ buildGroupsAux av 0 pixels [], ∀ j', j' ∈ g.2.map Prod.fst →
      ∃ px bp, pixels.get? j' = some px ∧ px.assigned = none ∧
        bestAvailable av px = some bp ∧ bp.hex = g.1 := by
    intro g hg j' hj'
    have hin : inGroups (buildGroupsAux av 0 pixels []) j' g.1 := ⟨g, hg, rfl, hj'⟩
    rw [hspec j' g.1] at hin
    rcases hin with hfalse | ⟨t, px, hget, hj, hun, bp, hbp, hbh⟩
    · exact absurd hfalse (hnil j' g.1)
    · exact ⟨px, bp, by rw [show j' = t from by omega]; exact hget, hun, hbp, hbh⟩
  have hdisj : (buildGroupsAux av 0 pixels []).Pairwise
      (fun g1 g2 => ∀ j', j' ∈ g1.2.map Prod.fst → ¬ j' ∈ g2.2.map Prod.fst) := by
    refine List.Pairwise.imp_of_mem ?_
      (buildGroups_keys_pairwise av pixels 0 [] List.Pairwise.nil)
    intro a b ha hb hne j' hja hjb
    obtain ⟨px1, bp1, hg1, hu1, hb1, hh1⟩ := hdet a ha j' hja
    obtain ⟨px2, bp2, hg2, hu2, hb2, hh2⟩ := hdet b hb j' hjb
    have hpx : px1 = px2 := Option.some.inj (hg1.symm.trans hg2)
    subst hpx
    have hbp : bp1 = bp2 := Option.some.inj (hb1.symm.trans hb2)
    subst hbp
    exact hne (hh1.symm.trans hh2)
  have hkinf : ∀ g ∈ buildGroupsAux av 0 pixels [], alookup av g.1 = some Qty.inf := by
    intro g hg
    have hne : g.2 ≠ [] := buildGroups_nonempty av pixels 0 []
      (fun g' hg' => absurd hg' (List.not_mem_nil g')) g hg
    obtain ⟨p, ps, hcons⟩ := List.exists_cons_of_ne_nil hne
    have hj' : p.1 ∈ g.2.map Prod.fst := by
      rw [hcons]
      simp
    obtain ⟨px, bp, hget, hun, hbp, hbh⟩ := hdet g hg p.1 hj'
    have hpxmem : px ∈ pixels :=
      List.getElem?_mem (by rw [← List.get?_eq_getElem?]; exact hget)
    have := hall px hpxmem hun bp (bestAvailable_mem av px bp hbp)
    rw [← hbh]
    exact this
  have hfold := groupsFold_get?_inf (buildGroupsAux av 0 pixels [])
    (phase1Assign av pixels) av hkinf hdisj j
  show ((buildGroupsAux av 0 pixels []).foldl applyGroup
    (phase1Assign av pixels, av)).1.get? j = _
  rw [hfold]
  have hph1 : (phase1Assign av pixels).get? j = (pixels.get? j).map (fun px =>
      if px.assigned = none ∧ bestAvailable av px = none then
        { px with assigned := some (jsOrStr ((px.preferences.head?).map Pref.hex) "clear") }
      else px) := by
    unfold phase1Assign
    simp [List.get?_eq_getElem?]
  cases hpx : pixels.get? j with
  | none =>
    have hfind : (buildGroupsAux av 0 pixels []).find?
        (fun g => decide (j ∈ g.2.map Prod.fst)) = none := by
      rw [List.find?_eq_none]
      intro g hg
      simp only [decide_eq_true_eq]
      intro hj'
      obtain ⟨px, bp, hget, _⟩ := hdet g hg j hj'
      rw [hpx] at hget
      exact absurd hget (by simp)
    rw [hfind, hph1, hpx]
    rfl
  | some px =>
    by_cases hun : px.assigned = none
    · have hpxmem : px ∈ pixels :=
        List.getElem?_mem (by rw [← List.get?_eq_getElem?]; exact hpx)
      have hbest : bestAvailable av px = px.preferences.head? :=
        bestAvailable_inf av px (hall px hpxmem hun)
      cases hh : px.preferences.head? with
      | some pr =>
        have hbest' : bestAvailable av px = some pr := by rw [hbest, hh]
        have hing : inGroups (buildGroupsAux av 0 pixels []) j pr.hex :=
          (hspec j pr.hex).mpr (Or.inr ⟨j, px, hpx, by omega, hun, pr, hbest', rfl⟩)
        cases hf : (buildGroupsAux av 0 pixels []).find?
            (fun g => decide (j ∈ g.2.map Prod.fst)) with
        | none =>
          exfalso
          obtain ⟨g, hg, hk, hjg⟩ := hing
          rw [List.find?_eq_none] at hf
          exact hf g hg (by simpa using hjg)
        | some gf =>
          have hgfmem := List.mem_of_find?_eq_some hf
          have hgfpred : j ∈ gf.2.map Prod.fst := by
            simpa using List.find?_some hf
          obtain ⟨px', bp', hget', hun', hb', hh'⟩ := hdet gf hgfmem j hgfpred
          have hpx' : px' = px := Option.some.inj (hget'.symm.trans hpx)
          have hbp' : bp' = pr := by
            rw [hpx'] at hb'
            exact Option.some.inj (hb'.symm.trans hbest')
          have hkey : gf.1 = pr.hex := by rw [← hh', hbp']
          rw [hph1, hpx]
          have hcond : ¬ (px.assigned = none ∧ bestAvailable av px = none) := by
            rintro ⟨-, hcontra⟩
            rw [hbest'] at hcontra
            exact absurd hcontra (by simp)
          simp only [Option.map_some', if_neg hcond]
          have hab : assignBest px = { px with assigned := some pr.hex } := by
            unfold assignBest
            rw [if_pos hun, hh]
          rw [hab, hkey]
      | none =>
        have hbest' : bestAvailable av px = none := by rw [hbest, hh]
        have hfind : (buildGroupsAux av 0 pixels []).find?
            (fun g => decide (j ∈ g.2.map Prod.fst)) = none := by
          rw [List.find?_eq_none]
          intro g hg
          simp only [decide_eq_true_eq]
          intro hj'
          obtain ⟨px', bp', hget', hun', hb', hh'⟩ := hdet g hg j hj'
          have hpx' : px' = px := Option.some.inj (hget'.symm.trans hpx)
          subst hpx'
          rw [hbest'] at hb'
          exact absurd hb' (by simp)
        rw [hfind, hph1, hpx]
        have hcond : px.assigned = none ∧ bestAvailable av px = none := ⟨hun, hbest'⟩
        simp only [Option.map_some', if_pos hcond]
        have hab : assignBest px = { px with assigned := some "clear" } := by
          unfold assignBest
          rw [if_pos hun, hh]
        rw [hab, hh]
        rfl
    · have hfind : (buildGroupsAux av 0 pixels []).find?
          (fun g => decide (j ∈ g.2.map Prod.fst)) = none := by
        rw [List.find?_eq_none]
        intro g hg
        simp only [decide_eq_true_eq]
        intro hj'
        obtain ⟨px', bp', hget', hun', _⟩ := hdet g hg j hj'
        have hpx' : px' = px := Option.some.inj (hget'.symm.trans hpx)
        subst hpx'
        exact hun hun'
      rw [hfind, hph1, hpx]
      have hcond : ¬ (px.assigned = none ∧ bestAvailable av px = none) := by
        rintro ⟨hcontra, -⟩
        exact hun hcontra
      simp only [Option.map_some', if_neg hcond]
      have hab : assignBest px = px := by
        unfold assignBest
        rw [if_neg hun]
      rw [hab]

theorem assignBest_ne_none (px : PixelPref) : (assignBest px).assigned ≠ none := by
  unfold assignBest
  by_cases h : px.assigned = none
  · rw [if_pos h]
    cases hh : px.preferences.head? <;> simp
  · rw [if_neg h]
    exact h

theorem rationRounds_get?_inf (av : List (String × Qty)) (pixels : List PixelPref)
    (hall : ∀ px ∈ pixels, px.assigned = none →
      ∀ pr ∈ px.preferences, alookup av pr.hex = some Qty.inf) :
    ∀ j, (rationRounds 10 av pixels).get? j = (pixels.get? j).map assignBest := by
  intro j
  show (if pixels.any (fun px => px.assigned = none) = true then
      rationRounds 9 (doRound av pixels).2 (doRound av pixels).1
    else pixels).get? j = _
  by_cases hu : pixels.any (fun px => px.assigned = none) = true
  · rw [if_pos hu]
    have hassigned : (doRound av pixels).1.any (fun px => px.assigned = none) = false := by
      rw [List.any_eq_false]
      intro px hpx
      obtain ⟨n, hn⟩ := List.getElem?_of_mem hpx
      have hchar := doRound_get?_inf av pixels hall n
      rw [List.get?_eq_getElem?, hn] at hchar
      cases hpn : pixels.get? n with
      | none =>
        rw [hpn] at hchar
        exact absurd hchar.symm (by simp)
      | some px0 =>
        rw [hpn] at hchar
        have : px = assignBest px0 := Option.some.inj hchar
        simp only [this, decide_eq_true_eq]
        exact assignBest_ne_none px0
    show (if (doRound av pixels).1.any (fun px => px.assigned = none) = true then
        rationRounds 8 (doRound (doRound av pixels).2 (doRound av pixels).1).2
          (doRound (doRound av pixels).2 (doRound av pixels).1).1
      else (doRound av pixels).1).get? j = _
    rw [if_neg (by rw [hassigned]; simp)]
    exact doRound_get?_inf av pixels hall j
  · rw [if_neg hu]
    have hu' : pixels.any (fun px => px.assigned = none) = false := by
      revert hu
      cases pixels.any (fun px => px.assigned = none) <;> simp
    cases hpx : pixels.get? j with
    | none => rfl
    | some px =>
      have hmem : px ∈ pixels :=
        List.getElem?_mem (by rw [← List.get?_eq_getElem?]; exact hpx)
      have hun : ¬ px.assigned = none := by
        have := List.any_eq_false.mp hu' px hmem
        simpa using this
      show some px = some (assignBest px)
      unfold assignBest
      rw [if_neg hun]

theorem flatten_uniform_length (f : Nat → List α) (C : Nat)
    (hC : ∀ r, (f r).length = C) :
    ∀ R, (((List.range R).map f).flatten).length = R * C := by
  intro R
  induction R with
  | zero => simp
  | succ R ih =>
    rw [List.range_succ, List.map_append, List.flatten_append]
    simp only [List.map_cons, List.map_nil, List.flatten_cons, List.flatten_nil,
      List.append_nil, List.length_append, ih, hC R]
    ring

theorem flatten_uniform_get? (f : Nat → List α) (C : Nat)
    (hC : ∀ r, (f r).length = C) :
    ∀ R r c, r < R → c < C →
      (((List.range R).map f).flatten).get? (r * C + c) = (f r).get? c := by
  intro R
  induction R with
  | zero =>
    intro r c hr
    omega
  | succ R ih =>
    intro r c hr hc
    rw [List.range_succ, List.map_append, List.flatten_append]
    simp only [List.map_cons, List.map_nil, List.flatten_cons, List.flatten_nil,
      List.append_nil]
    have hlen : (((List.range R).map f).flatten).length = R * C :=
      flatten_uniform_length f C hC R
    by_cases hrR : r < R
    · have hb : r * C + c < (((List.range R).map f).flatten).length := by
        rw [hlen]
        have h1 : r * C + c < (r + 1) * C := by
          rw [Nat.succ_mul]
          omega
        have h2 : (r + 1) * C ≤ R * C := Nat.mul_le_mul_right C hrR
        omega
      rw [List.get?_eq_getElem?, List.getElem?_append, if_pos hb,
        ← List.get?_eq_getElem?]
      exact ih r c hrR hc
    · have hrR' : r = R := by omega
      subst hrR'
      rw [List.get?_eq_getElem?, List.getElem?_append_right (by rw [hlen]; omega)]
      rw [hlen, show r * C + c - r * C = c from by omega, ← List.get?_eq_getElem?]

theorem mkPixelPrefs_get? (pixelColors : Grid) (palette : List PaletteEntry)
    (rows cols r c : Nat) (hr : r < rows) (hc : c < cols) :
    (mkPixelPrefs pixelColors palette rows cols).get? (r * cols + c) =
      some (mkPixelPref pixelColors palette r c) := by
  unfold mkPixelPrefs
  rw [flatten_uniform_get?
    (fun r => (List.range cols).map (fun c => mkPixelPref pixelColors palette r c))
    cols (fun r => by simp) rows r c hr hc]
  rw [List.get?_eq_getElem?, List.getElem?_map, List.getElem?_range hc]
  rfl

theorem hexToRgb_some_ne_empty (s : String) (h : hexToRgb s ≠ none) : s ≠ "" := by
  intro he
  subst he
  exact h (by decide)

theorem colorDistance_some (a b : String) (ha : hexToRgb a ≠ none)
    (hb : hexToRgb b ≠ none) : colorDistance a b ≠ none := by
  unfold colorDistance
  cases hra : hexToRgb a with
  | none => exact absurd hra ha
  | some ra =>
    cases hrb : hexToRgb b with
    | none => exact absurd hrb hb
    | some rb =>
      obtain ⟨r1, g1, b1⟩ := ra
      obtain ⟨r2, g2, b2⟩ := rb
      simp

theorem rawPreferences_mem_entry (pixelHex : String) (palette : List PaletteEntry)
    (pr : Pref) (hpr : pr ∈ rawPreferences pixelHex palette) :
    ∃ e ∈ palette, ¬ (e.hex = "clear" ∨ e.hex = "disney") ∧ pr.hex = e.hex ∧
      pr.distance = colorDistance pixelHex e.hex := by
  unfold rawPreferences at hpr
  obtain ⟨e, he, hmap⟩ := List.mem_map.mp hpr
  have hfil := List.mem_filter.mp he
  refine ⟨e, hfil.1, by simpa using hfil.2, ?_, ?_⟩
  · rw [← hmap]
  · rw [← hmap]

theorem getColorPreferences_mem_entry (pixelHex : String) (palette : List PaletteEntry)
    (pr : Pref) (hpr : pr ∈ getColorPreferences pixelHex palette) :
    ∃ e ∈ palette, ¬ (e.hex = "clear" ∨ e.hex = "disney") ∧ pr.hex = e.hex ∧
      pr.distance = colorDistance pixelHex e.hex := by
  rw [getColorPreferences_eq_sort, sortStable_mem] at hpr
  exact rawPreferences_mem_entry pixelHex palette pr hpr

/-- C4: with unlimited supply on every non-special palette color (and
well-formed hex colors per the data model), the rationing assignment
coincides with the naive pointwise nearest-color map: every opaque pixel
gets its single nearest palette color, every clear pixel stays clear. -/
theorem unlimitedSupplyMatchesNearestColor (pixelColors : Grid)
    (palette : List PaletteEntry) (R C : Nat)
    (hR : pixelColors.length = R) (hrect : ∀ row ∈ pixelColors, row.length = C)
    (hR1 : 1 ≤ R)
    (hpal : ∀ e ∈ palette, ¬ (e.hex = "clear" ∨ e.hex = "disney") →
      hexToRgb e.hex ≠ none ∧ e.quantity = Qty.inf)
    (hpix : ∀ row ∈ pixelColors, ∀ px ∈ row,
      px = "clear" ∨ px = "transparent" ∨ hexToRgb px ≠ none) :
    distributeColorsEvenly pixelColors palette = naiveAssignment pixelColors palette := by
  have hne : pixelColors ≠ [] := by
    intro h
    rw [h] at hR
    simp at hR
    omega
  have hhead : (pixelColors.head?.map List.length).getD 0 = C := headLenD _ C hne hrect
  have hq : ∀ e ∈ palette, ¬ (e.hex = "clear" ∨ e.hex = "disney") →
      e.quantity = Qty.inf := fun e he h => (hpal e he h).2
  have hall : ∀ px ∈ mkPixelPrefs pixelColors palette R C, px.assigned = none →
      ∀ pr ∈ px.preferences, alookup (buildAvail palette) pr.hex = some Qty.inf := by
    intro px hpx hun pr hpr
    rw [mkPixelPrefs, List.mem_flatten] at hpx
    obtain ⟨l, hl, hpxl⟩ := hpx
    obtain ⟨r, _, hrow⟩ := List.mem_map.mp hl
    subst hrow
    obtain ⟨c, _, hcell⟩ := List.mem_map.mp hpxl
    subst hcell
    unfold mkPixelPref at hun hpr
    by_cases hcl : (pixelColors.getD r []).getD c "undefined" = "clear" ∨
        (pixelColors.getD r []).getD c "undefined" = "transparent"
    · rw [if_pos hcl] at hun
      exact absurd hun (by simp)
    · rw [if_neg hcl] at hpr
      simp only at hpr
      obtain ⟨e, he, hnsp, hhex, -⟩ := getColorPreferences_mem_entry _ palette pr hpr
      exact buildAvail_inf palette hq pr.hex ⟨e, he, hnsp, hhex.symm⟩
  apply List.ext_getElem?
  intro n
  simp only [distributeColorsEvenly, naiveAssignment]
  rw [hR, hhead]
  rw [List.getElem?_map, List.getElem?_map]
  by_cases hn : n < R
  · rw [List.getElem?_range hn]
    have hnlen : n < pixelColors.length := by omega
    have hrowsome : pixelColors[n]? = some pixelColors[n] :=
      List.getElem?_eq_getElem hnlen
    rw [hrowsome]
    simp only [Option.map_some', Option.some.injEq]
    apply List.ext_getElem?
    intro m
    rw [List.getElem?_map, List.getElem?_map]
    by_cases hm : m < C
    · rw [List.getElem?_range hm]
      have hrowlen : pixelColors[n].length = C := hrect _ (List.getElem_mem hnlen)
      have hmlen : m < pixelColors[n].length := by omega
      have hcellsome : pixelColors[n][m]? = some pixelColors[n][m] :=
        List.getElem?_eq_getElem hmlen
      rw [hcellsome]
      simp only [Option.map_some', Option.some.injEq]
      have hfinal : (rationRounds 10 (buildAvail palette)
          (mkPixelPrefs pixelColors palette R C)).get? (n * C + m) =
          some (assignBest (mkPixelPref pixelColors palette n m)) := by
        rw [rationRounds_get?_inf (buildAvail palette) _ hall,
          mkPixelPrefs_get? pixelColors palette R C n m hn hm]
        rfl
      show (match (rationRounds 10 (buildAvail palette)
          (mkPixelPrefs pixelColors palette R C)).get? (n * C + m) with
        | some px =>
          jsOrStr px.assigned (jsOrStr ((px.preferences.head?).map Pref.hex) "clear")
        | none => "clear") = _
      rw [hfinal]
      have hrowD : List.getD pixelColors n [] = pixelColors[n] := by
        rw [List.getD_eq_getElem?_getD, hrowsome]
        rfl
      have hpixhex : (pixelColors.getD n []).getD m "undefined" = pixelColors[n][m] := by
        rw [hrowD, List.getD_eq_getElem?_getD, hcellsome]
        rfl
      by_cases hcl : pixelColors[n][m] = "clear" ∨ pixelColors[n][m] = "transparent"
      · have hmk : mkPixelPref pixelColors palette n m =
            { row := n, col := m, preferences := [{ hex := "clear", distance := some 0 }],
              assigned := some "clear" } := by
          unfold mkPixelPref
          rw [hpixhex, if_pos hcl]
        rw [hmk, if_pos hcl]
        rfl
      · have hmk : mkPixelPref pixelColors palette n m =
            { row := n, col := m,
              preferences := getColorPreferences (pixelColors[n][m]) palette,
              assigned := none } := by
          unfold mkPixelPref
          rw [hpixhex, if_neg hcl]
        rw [hmk, if_neg hcl]
        have hcellvalid : hexToRgb (pixelColors[n][m]) ≠ none := by
          rcases hpix _ (List.getElem_mem hnlen) _ (List.getElem_mem hmlen) with h | h | h
          · exact absurd (Or.inl h) hcl
          · exact absurd (Or.inr h) hcl
          · exact h
        have hfin : ∀ pr ∈ rawPreferences (pixelColors[n][m]) palette,
            pr.distance ≠ none := by
          intro pr hpr
          obtain ⟨e, he, hnsp, -, hdist⟩ :=
            rawPreferences_mem_entry _ palette pr hpr
          rw [hdist]
          exact colorDistance_some _ _ hcellvalid (hpal e he hnsp).1
        rw [findClosest_eq_head _ palette hfin]
        cases hh : (getColorPreferences (pixelColors[n][m]) palette).head? with
        | none =>
          have hab : assignBest
              { row := n, col := m,
                preferences := getColorPreferences (pixelColors[n][m]) palette,
                assigned := none } =
              { row := n, col := m,
                preferences := getColorPreferences (pixelColors[n][m]) palette,
                assigned := some "clear" } := by
            simp [assignBest, hh]
          rw [hab]
          rfl
        | some pr =>
          have hab : assignBest
              { row := n, col := m,
                preferences := getColorPreferences (pixelColors[n][m]) palette,
                assigned := none } =
              { row := n, col := m,
                preferences := getColorPreferences (pixelColors[n][m]) palette,
                assigned := some pr.hex } := by
            simp [assignBest, hh]
          rw [hab]
          have hprhex : pr.hex ≠ "" := by
            obtain ⟨e, he, hnsp, hhex, -⟩ := getColorPreferences_mem_entry _ palette pr
              (List.mem_of_mem_head? (Option.mem_def.mpr hh))
            rw [hhex]
            exact hexToRgb_some_ne_empty _ (hpal e he hnsp).1
          show jsOrStr (some pr.hex) _ = pr.hex
          simp [jsOrStr, hprhex]
    · have h1 : (List.range C)[m]? = none := by
        rw [List.getElem?_eq_none_iff]
        simpa using hm
      have h2 : pixelColors[n][m]? = none := by
        rw [List.getElem?_eq_none_iff, hrect _ (List.getElem_mem hnlen)]
        omega
      rw [h1, h2]
      rfl
  · have hnone1 : (List.range R)[n]? = none := by
      rw [List.getElem?_eq_none_iff]
      simpa using hn
    have hnone2 : pixelColors[n]? = none := by
      rw [List.getElem?_eq_none_iff]
      omega
    rw [hnone1, hnone2]
    rfl

theorem unlimitedSupplyMatchesNearestColor_witness :
    distributeColorsEvenly [["#ff0000"]] [{ hex := "#0000ff", quantity := Qty.inf }]
      = naiveAssignment [["#ff0000"]] [{ hex := "#0000ff", quantity := Qty.inf }] :=
  unlimitedSupplyMatchesNearestColor [["#ff0000"]] [{ hex := "#0000ff", quantity := Qty.inf }]
    1 1 (by decide) (by decide) (by decide) (by decide) (by decide)
